import Mathlib

/-!
Verification of the Timestamp Alignment Engine
(`ingestion/core/alignment.py` and `app/routers/aligned_data.py`).

The embedding models pandas `DataFrame`s as a list of column names together
with a list of date-indexed rows (each row a list of nullable cells), and
translates the operations the engine uses: `reindex` (exact-date lookup),
`ffill` (per-column forward fill in row order), `join` (left join on the
date index, with optional `rsuffix` renaming of colliding right columns),
range filtering, and the two aligners `align` (dense daily calendar) and
`align_to_sparse_ref` (sparse reference clock).  Calendar dates are modelled
as integers (day numbers); `yearEndDate` is an injective monotone day
numbering standing for the `"{y}-12-31"` conversion in `load_financials`.
-/

namespace MiniBloomberg

/-- A scalar cell value: a number or a string.  Calendar days are plain
`Int` day numbers (all source timestamps are normalized to midnight, so a
date is just a day and date ordering is integer ordering). -/
inductive Value where
  | num (q : Int)
  | str (s : String)
deriving DecidableEq

/-- A nullable cell (pandas NaN / None is `none`). -/
abbrev Cell := Option Value

/-- One row of a frame: its date and one cell per column. -/
abbrev Row := Int × List Cell

/-- A pandas DataFrame with a DatetimeIndex: column names plus
date-indexed rows. -/
structure DataFrame where
  cols : List String
  rows : List Row
deriving DecidableEq

/-- `pd.DataFrame()` — the empty frame. -/
def emptyDF : DataFrame := ⟨[], []⟩

/-- Look up the (first) row at an exact date, as pandas index lookup does. -/
def lookupRow (rows : List Row) (d : Int) : Option (List Cell) :=
  (rows.find? (fun r => r.1 = d)).map Prod.snd

/-- An all-null row shaped like `df`'s columns. -/
def noneRow (df : DataFrame) : List Cell := df.cols.map (fun _ => none)

/-- The row `df` contributes at date `d`: its own row if one exists at
exactly `d`, otherwise all nulls.  This is pandas `reindex` semantics for
one label. -/
def reindexRow (df : DataFrame) (d : Int) : List Cell :=
  (lookupRow df.rows d).getD (noneRow df)

/-- `df.reindex(idx)` with `method=None`: exact-date lookup only. -/
def DataFrame.reindex (df : DataFrame) (idx : List Int) : DataFrame :=
  ⟨df.cols, idx.map (fun d => (d, reindexRow df d))⟩

/-- One `ffill` step: a cell keeps its value if present, else takes the
carried value of its column. -/
def ffillRow (last cur : List Cell) : List Cell :=
  List.zipWith (fun l c => match c with | some v => some v | none => l) last cur

/-- `ffill` down the rows, carrying the last seen value of every column. -/
def ffillAux (last : List Cell) : List Row → List Row
  | [] => []
  | (d, vs) :: rest =>
    let merged := ffillRow last vs
    (d, merged) :: ffillAux merged rest

/-- `df.ffill()` — forward-fill every column in row order. -/
def DataFrame.ffill (df : DataFrame) : DataFrame :=
  ⟨df.cols, ffillAux (noneRow df) df.rows⟩

/-- Rows of a left join on the date index: each left row keeps its date and
cells and appends the right frame's cells at that date (nulls when the right
frame has no such date). -/
def joinRows (lrows : List Row) (r : DataFrame) : List Row :=
  lrows.map (fun p => (p.1, p.2 ++ reindexRow r p.1))

/-- `l.join(r, how="left")` with no suffix: pandas raises
`columns overlap but no suffix specified` when column names collide. -/
def DataFrame.joinD (l r : DataFrame) : Except String DataFrame :=
  if (r.cols.filter (fun c => l.cols.contains c)).isEmpty then
    .ok ⟨l.cols ++ r.cols, joinRows l.rows r⟩
  else .error "columns overlap but no suffix specified"

/-- `l.join(r, how="left", rsuffix=suf)`: colliding right columns are
renamed by appending `suf`; never raises. -/
def DataFrame.joinS (l r : DataFrame) (suf : String) : DataFrame :=
  ⟨l.cols ++ r.cols.map (fun c => if l.cols.contains c then c ++ suf else c),
   joinRows l.rows r⟩

/-- `pd.date_range(start, end, freq="D")` — every calendar day of
[start, end], weekends and holidays included. -/
def dateRange (s e : Int) : List Int :=
  (List.range (e + 1 - s).toNat).map (fun i : Nat => s + (i : Int))

/-- `df.loc[start:end]` — keep only rows dated inside [start, end]. -/
def DataFrame.clip (start e : Int) (df : DataFrame) : DataFrame :=
  ⟨df.cols, df.rows.filter (fun r => decide (start ≤ r.1 ∧ r.1 ≤ e))⟩

/-- The dense join loop of `align`: each non-empty dataset is reindexed onto
the calendar index, forward-filled, and left-joined (no suffix) into the
accumulator. -/
def denseFold (idx : List Int) : List (String × DataFrame) → DataFrame → Except String DataFrame
  | [], acc => .ok acc
  | (_, df) :: rest, acc =>
    if df.rows = [] then denseFold idx rest acc
    else
      match acc.joinD ((df.reindex idx).ffill) with
      | .ok acc2 => denseFold idx rest acc2
      | .error e => .error e

/-- `align(ticker, start, end)` over already-loaded datasets (the dict
iteration order is the list order): empty when every dataset is empty,
otherwise the calendar-index join loop followed by the `loc[start:end]`
clip. -/
def alignDense (start e : Int) (dss : List (String × DataFrame)) : Except String DataFrame :=
  if ∀ p ∈ dss, p.2.rows = [] then .ok emptyDF
  else
    let idx := dateRange start e
    (denseFold idx dss ⟨[], idx.map (fun d => (d, ([] : List Cell)))⟩).map
      (DataFrame.clip start e)

/-- `SPARSITY_ORDER` — index 0 = sparsest, used as reference clock first. -/
def SPARSITY_ORDER : List String := ["executives", "filings", "financials", "news", "prices"]

/-- `datasets.get(name)` on the loaded-dataset mapping. -/
def lookupDF (n : String) (dss : List (String × DataFrame)) : Option DataFrame :=
  (dss.find? (fun p => p.1 = n)).map Prod.snd

/-- The sparse reference clock: the first name in `SPARSITY_ORDER` whose
dataset is present and non-empty. -/
def pickRef (dss : List (String × DataFrame)) : Option (String × DataFrame) :=
  SPARSITY_ORDER.findSome? (fun n =>
    match lookupDF n dss with
    | some df => if df.rows = [] then none else some (n, df)
    | none => none)

/-- `df.index.union(other).sort_values()` — sorted union without
duplicates. -/
def sortedUnion (l1 l2 : List Int) : List Int :=
  ((l1 ++ l2).dedup).insertionSort (fun a b => a ≤ b)

/-- The union-then-project step of `align_to_sparse_ref`: reindex the
dataset onto the union of its own dates with the reference dates, forward
fill, then project back onto the reference dates. -/
def sparseProject (df : DataFrame) (refDates : List Int) : DataFrame :=
  ((df.reindex (sortedUnion (df.rows.map Prod.fst) refDates)).ffill).reindex refDates

/-- The sparse join loop: every non-reference, non-empty dataset is
union-filled-projected onto the reference dates and left-joined with
`rsuffix="_" ++ name`. -/
def sparseFold (refDates : List Int) (rn : String) :
    List (String × DataFrame) → DataFrame → DataFrame
  | [], acc => acc
  | (n, df) :: rest, acc =>
    if n = rn ∨ df.rows = [] then sparseFold refDates rn rest acc
    else sparseFold refDates rn rest (acc.joinS (sparseProject df refDates) ("_" ++ n))

/-- `align_to_sparse_ref(ticker, start, end)` over already-loaded datasets.
The initial `pd.DataFrame(index=...).join(ref_filtered)` is a left join
from a zero-column frame, which can never collide, so it is modelled with
the suffixing join at suffix `""`. -/
def alignSparse (start e : Int) (dss : List (String × DataFrame)) : DataFrame :=
  match pickRef dss with
  | none => emptyDF
  | some (rn, rdf) =>
    let refF := rdf.rows.filter (fun r => decide (start ≤ r.1 ∧ r.1 ≤ e))
    if refF = [] then emptyDF
    else
      let acc0 := DataFrame.joinS ⟨[], refF.map (fun r => (r.1, ([] : List Cell)))⟩
        ⟨rdf.cols, refF⟩ ""
      sparseFold (refF.map Prod.fst) rn dss acc0

/-! ## Loaders

Each loader reads one persisted file.  A file is `missing`, `malformed`
(present but unparseable), or `parsed` into source-specific data.  The
loaders for financials, filings, news and executives wrap their body in
`try/except` and return an empty frame on any read error (logging a
warning); `load_prices` has no such guard, so a malformed CSV propagates
as an error. -/

/-- The state of one persisted source file. -/
inductive ReadResult (α : Type) where
  | missing
  | malformed
  | parsed (a : α)
deriving DecidableEq

/-- Parsed `{ticker}_prices_2y.csv`: per-day close and volume cells. -/
structure PricesData where
  rows : List Row
deriving DecidableEq

/-- `load_prices`: missing file gives an empty frame; a malformed CSV is
not caught (no try/except) and raises to the caller. -/
def loadPrices : ReadResult PricesData → Except String DataFrame
  | .missing => .ok emptyDF
  | .malformed => .error "malformed prices csv"
  | .parsed j => .ok ⟨["price_close", "price_volume"], j.rows⟩

/-- Parsed `derived` block of `{ticker}_p1_summary.json`: derived metric
columns indexed by year integers. -/
structure FinData where
  cols : List String
  byYear : List (Int × List Cell)
deriving DecidableEq

/-- Day number of `"{y}-12-31"`: an injective monotone numbering of
year-end dates (the concrete day arithmetic is irrelevant to the engine). -/
def yearEndDate (y : Int) : Int := 366 * y

/-- `load_financials`: missing file or empty `derived` gives an empty
frame; any read error is caught, logged, and converted to an empty frame. -/
def loadFinancials : ReadResult FinData → Except String DataFrame
  | .missing => .ok emptyDF
  | .malformed => .ok emptyDF
  | .parsed j =>
    if j.cols = [] then .ok emptyDF
    else .ok ⟨j.cols, j.byYear.map (fun r => (yearEndDate r.1, r.2))⟩

/-- One entry of the `filings` array. -/
structure Filing where
  filed_date : Option Int
  form_type : Option String
  filing_url : Option String
  accession_number : Option String
deriving DecidableEq

/-- Parsed `{ticker}_p2_filings.json`. -/
structure FilingsData where
  filings : List Filing
deriving DecidableEq

/-- `df[~df.index.duplicated(keep="last")]` — keep only the last row of
each duplicated date, preserving the order of the kept rows. -/
def dedupKeepLast : List Row → List Row
  | [] => []
  | r :: rest =>
    if rest.any (fun r2 => r2.1 == r.1) then dedupKeepLast rest
    else r :: dedupKeepLast rest

/-- `load_filings`: rows are the filings that carry a `filed_date`,
deduplicated keeping the last per date; missing file, empty rows, or any
read error gives an empty frame. -/
def loadFilings : ReadResult FilingsData → Except String DataFrame
  | .missing => .ok emptyDF
  | .malformed => .ok emptyDF
  | .parsed j =>
    let rows := j.filings.filterMap (fun f =>
      f.filed_date.map (fun d =>
        ((d : Int), [f.form_type.map Value.str, f.filing_url.map Value.str,
          f.accession_number.map Value.str])))
    if rows = [] then .ok emptyDF
    else .ok ⟨["filing_type", "filing_url", "accession_number"], dedupKeepLast rows⟩

/-- One entry of the `articles` array. -/
structure Article where
  published_at : Option Int
  title : Option String
  url : Option String
  publisher : Option String
deriving DecidableEq

/-- Parsed `{ticker}_p3_news.json`. -/
structure NewsData where
  articles : List Article
deriving DecidableEq

/-- `load_news`: one row per dated article, keeping the last article per
day; missing file, no rows, or any read error gives an empty frame. -/
def loadNews : ReadResult NewsData → Except String DataFrame
  | .missing => .ok emptyDF
  | .malformed => .ok emptyDF
  | .parsed j =>
    let rows := j.articles.filterMap (fun a =>
      a.published_at.map (fun d =>
        ((d : Int), [a.title.map Value.str, a.url.map Value.str,
          a.publisher.map Value.str])))
    if rows = [] then .ok emptyDF
    else .ok ⟨["news_title", "news_url", "news_publisher"], dedupKeepLast rows⟩

/-- One entry of the `executives` array. -/
structure Executive where
  name : Option String
  title : Option String
deriving DecidableEq

/-- Parsed `{ticker}_p4_exec_ownership.json`.  `fetched_at` is optional in
the file; when absent the loader substitutes the current day. -/
structure ExecData where
  fetched_at : Option Int
  executives : List Executive
deriving DecidableEq

/-- ASCII lower-casing of one character (what `str.lower()` does on the
ASCII titles in play). -/
def lowerChar (c : Char) : Char :=
  if 65 ≤ c.toNat ∧ c.toNat ≤ 90 then Char.ofNat (c.toNat + 32) else c

/-- Contiguous-substring test on character lists (Python's `in` on str). -/
def substrCheck (pat : List Char) : List Char → Bool
  | [] => pat.isEmpty
  | c :: rest => pat.isPrefixOf (c :: rest) || substrCheck pat rest

/-- Python `"ceo" in title.lower()` — case-insensitive substring test. -/
def containsCeo (s : String) : Bool :=
  substrCheck ['c', 'e', 'o'] (s.data.map lowerChar)

/-- `load_executives`: a one-row snapshot at the fetched date for the first
executive whose title contains "ceo".  When the file lacks `fetched_at` the
row is dated `pd.to_datetime(datetime.now()).normalize()`, i.e. `today` —
an ambient-clock dependence. -/
def loadExecutives (r : ReadResult ExecData) (today : Int) : Except String DataFrame :=
  match r with
  | .missing => .ok emptyDF
  | .malformed => .ok emptyDF
  | .parsed j =>
    if j.executives = [] then .ok emptyDF
    else
      let fetched := j.fetched_at.getD today
      match j.executives.find? (fun ex => containsCeo (ex.title.getD "")) with
      | some ceo => .ok ⟨["exec_ceo_name", "exec_ceo_title", "exec_count"],
          [(fetched, [ceo.name.map Value.str, ceo.title.map Value.str,
            some (Value.num (j.executives.length : Int))])]⟩
      | none => .ok emptyDF

/-- The five persisted source files of one ticker. -/
structure SourceFiles where
  prices : ReadResult PricesData
  financials : ReadResult FinData
  filings : ReadResult FilingsData
  news : ReadResult NewsData
  executives : ReadResult ExecData
deriving DecidableEq

/-- The `datasets = {...}` dict built at the top of `align` and
`align_to_sparse_ref`, in its insertion order. -/
def loadAll (f : SourceFiles) (today : Int) : Except String (List (String × DataFrame)) := do
  let p ← loadPrices f.prices
  let fin ← loadFinancials f.financials
  let fil ← loadFilings f.filings
  let nw ← loadNews f.news
  let ex ← loadExecutives f.executives today
  pure [("prices", p), ("financials", fin), ("filings", fil), ("news", nw), ("executives", ex)]

/-- `align(ticker, start, end)` including its loader calls.  `today` is the
ambient clock read by `load_executives` when `fetched_at` is absent. -/
def alignEngine (f : SourceFiles) (today : Int) (start e : Int) : Except String DataFrame :=
  match loadAll f today with
  | .error m => .error m
  | .ok dss => alignDense start e dss

/-- `align_to_sparse_ref(ticker, start, end)` including its loader calls. -/
def alignEngineSparse (f : SourceFiles) (today : Int) (start e : Int) : Except String DataFrame :=
  (loadAll f today).map (alignSparse start e)

/-! ## Router (`app/routers/aligned_data.py`, `get_aligned_data`) -/

/-- The error responses the endpoint can produce: the two HTTP 400
validation rejections and the HTTP 500 wrapper around engine exceptions. -/
inductive ApiError where
  | invalidRange
  | unsupportedMode
  | internal (msg : String)
deriving DecidableEq

/-- The request validation performed before any dataset access:
`start > end` is rejected first, then a mode outside
`("daily", "sparse")`. -/
def routerValidate (start e : Int) (mode : String) : Option ApiError :=
  if e < start then some .invalidRange
  else if ¬(mode = "daily" ∨ mode = "sparse") then some .unsupportedMode
  else none

/-- The response body of `get_aligned_data` (under the default `include`,
which keeps every column). -/
structure Response where
  success : Bool
  ticker : String
  start : Int
  endD : Int
  mode : String
  rowCount : Nat
  cols : List String
  rows : List Row
  metaMessage : String
  metaHint : String
deriving DecidableEq

/-- The single `meta.message` used for every zero-row result. -/
def emptyMessage : String := "No ingested data found. Run the ingestion layer first."

/-- The whole zero-row response body. -/
def emptyResponse (ticker : String) (start e : Int) (mode : String) : Response :=
  ⟨true, ticker, start, e, mode, 0, [], [], emptyMessage,
   "python -m ingestion.run_ingestion --ticker " ++ ticker⟩

/-- `get_aligned_data`: validate, load, dispatch on mode, and serialize;
any engine exception becomes an HTTP 500. -/
def routerHandle (ticker : String) (start e : Int) (mode : String)
    (files : SourceFiles) (today : Int) : Except ApiError Response :=
  match routerValidate start e mode with
  | some err => .error err
  | none =>
    match loadAll files today with
    | .error m => .error (.internal m)
    | .ok dss =>
      match (if mode = "sparse" then .ok (alignSparse start e dss) else alignDense start e dss) with
      | .error m => .error (.internal m)
      | .ok df =>
        if df.rows = [] then .ok (emptyResponse ticker start e mode)
        else .ok ⟨true, ticker, start, e, mode, df.rows.length, df.cols, df.rows,
          (if mode = "daily" then "daily calendar index with forward-fill"
           else "sparse reference clock (sparsest available dataset)"), ""⟩

/-- Decidable equality of engine results, so that concrete runs can be
checked by evaluation. -/
instance {ε α : Type} [DecidableEq ε] [DecidableEq α] : DecidableEq (Except ε α) := fun x y =>
  match x, y with
  | .ok a, .ok b =>
    if h : a = b then .isTrue (congrArg Except.ok h)
    else .isFalse (fun hh => h (Except.ok.inj hh))
  | .ok _, .error _ => .isFalse (fun hh => Except.noConfusion hh)
  | .error _, .ok _ => .isFalse (fun hh => Except.noConfusion hh)
  | .error a, .error b =>
    if h : a = b then .isTrue (congrArg Except.error h)
    else .isFalse (fun hh => h (Except.error.inj hh))

/-- The cell of table `t` at row date `T`, column position `i` (null when
the row or position is absent). -/
def cellAt (t : DataFrame) (T : Int) (i : Nat) : Cell :=
  ((lookupRow t.rows T).getD []).getD i none

/-- `o` is the most recent value of column `j` of `df` existing at or
before `T`: either no row dated ≤ T has a value in column j and `o` is
null, or `o` is the value of column j at the greatest timestamp ≤ T at
which column j has a value. -/
def IsLastValLE (df : DataFrame) (j : Nat) (T : Int) (o : Cell) : Prop :=
  (o = none ∧ ∀ r ∈ df.rows, r.1 ≤ T → r.2.getD j none = none)
  ∨ (∃ r ∈ df.rows, r.1 ≤ T ∧ r.2.getD j none = o ∧ o ≠ none ∧
      ∀ r2 ∈ df.rows, r2.1 ≤ T → r.1 < r2.1 → r2.2.getD j none = none)

/-- Strict lower bound by an optional date (`none` = minus infinity). -/
def OLT : Option Int → Int → Prop
  | none, _ => True
  | some b, x => b < x

/-- An upper bound by an optional date (`none` = minus infinity). -/
def OLE (x : Int) : Option Int → Prop
  | none => False
  | some b => x ≤ b

/-- `IsLastValLE` below an optional date: below minus infinity only null
qualifies. -/
def IsLastValLEb (df : DataFrame) (j : Nat) : Option Int → Cell → Prop
  | none, o => o = none
  | some T, o => IsLastValLE df j T o

/-- Concrete datasets for the C1 witness: one price point on day 1. -/
def c1Dss : List (String × DataFrame) :=
  [("prices", ⟨["price_close"], [(1, [some (Value.num 7)])]⟩)]

/-- Concrete datasets for the C3 witness: price points on days 1 and 3. -/
def c3Dss : List (String × DataFrame) :=
  [("prices", ⟨["price_close"], [(1, [some (Value.num 100)]), (3, [some (Value.num 102)])]⟩)]

/-- The table the dense aligner returns for `c3Dss` over [1, 3]. -/
def c3Expected : DataFrame :=
  ⟨["price_close"], [(1, [some (Value.num 100)]), (2, [some (Value.num 100)]),
    (3, [some (Value.num 102)])]⟩

/-- The single pre-range financials point of the C2 run: one value dated
day 0 (standing for 2023-12-31 before a range starting 2024-01-01). -/
def c2Financials : DataFrame := ⟨["revenue_fy"], [(0, [some (Value.num 500)])]⟩

/-- The loaded datasets of the C2 run: only financials non-empty. -/
def c2Datasets : List (String × DataFrame) :=
  [("prices", emptyDF), ("financials", c2Financials), ("filings", emptyDF),
   ("news", emptyDF), ("executives", emptyDF)]

/-- The reference dataset of the C4 witness: executive snapshots on days
31 and 121 (fewer points than prices, but chosen by policy order). -/
def c4Ex : DataFrame :=
  ⟨["exec_ceo_name"], [(31, [some (Value.str "A")]), (121, [some (Value.str "B")])]⟩

/-- Concrete datasets for the C4 witness: non-empty prices and executives. -/
def c4Dss : List (String × DataFrame) :=
  [("prices", ⟨["price_close"], [(30, [some (Value.num 1)]), (60, [some (Value.num 2)]),
      (100, [some (Value.num 3)]), (130, [some (Value.num 4)])]⟩),
   ("financials", emptyDF), ("filings", emptyDF), ("news", emptyDF), ("executives", c4Ex)]

/-- Concrete datasets for the C10 witness: financials and news both supply
a column named "x". -/
def c10Dss : List (String × DataFrame) :=
  [("prices", emptyDF), ("financials", ⟨["x"], [(2, [some (Value.num 9)])]⟩),
   ("filings", emptyDF), ("news", ⟨["x"], [(3, [some (Value.num 10)])]⟩),
   ("executives", emptyDF)]

/-- Empty source-file state used by the C6 witness. -/
def c6Files : SourceFiles := ⟨.missing, .missing, .missing, .missing, .missing⟩

/-- Source-file state with no data at all ("no datasets available"). -/
def c7NoData : SourceFiles := ⟨.missing, .missing, .missing, .missing, .missing⟩

/-- Source-file state whose only data lies outside the requested range
("range excludes all available points"): one financials year mapping to
day 36600, far beyond the range [0, 5] used in the counterexample. -/
def c7OutOfRange : SourceFiles :=
  ⟨.missing, .parsed ⟨["revenue_fy"], [(100, [some (Value.num 1)])]⟩,
   .missing, .missing, .missing⟩

/-- The executives file does not make the loaders read the ambient clock:
either it is not parsed data, or it carries `fetched_at`. -/
def clockFree (f : SourceFiles) : Prop :=
  match f.executives with
  | .parsed j => j.fetched_at.isSome = true
  | _ => True

/-- Executives file without `fetched_at`: the loader dates the snapshot at
the ambient current day. -/
def c9Files : SourceFiles :=
  ⟨.missing, .missing, .missing, .missing, .parsed ⟨none, [⟨some "A", some "CEO"⟩]⟩⟩

/-- Executives file carrying `fetched_at`, for the C9 witness. -/
def c9GoodFiles : SourceFiles :=
  ⟨.missing, .missing, .missing, .missing, .parsed ⟨some 1, [⟨some "A", some "CEO"⟩]⟩⟩

/-- The non-reference dataset of the C5 witness: daily-ish prices,
including a point (day 60) dated strictly between the two reference
points. -/
def c5Pr : DataFrame :=
  ⟨["price_close"], [(30, [some (Value.num 1)]), (60, [some (Value.num 2)]),
    (100, [some (Value.num 3)]), (130, [some (Value.num 4)])]⟩

/-- The reference dataset of the C5 witness: executive snapshots on days
31 and 121. -/
def c5Ex : DataFrame :=
  ⟨["exec_ceo_name"], [(31, [some (Value.str "A")]), (121, [some (Value.str "B")])]⟩

/-- Concrete datasets for the C5 witness. -/
def c5Dss : List (String × DataFrame) :=
  [("prices", c5Pr), ("financials", emptyDF), ("filings", emptyDF),
   ("news", emptyDF), ("executives", c5Ex)]

/-! ## Traceability: every non-null output cell comes from a real input
cell dated at or before its row -/

/-- The value `v` exists verbatim in one of the input datasets at a
timestamp at or before `d`. -/
def Traces (dss : List (String × DataFrame)) (d : Int) (v : Value) : Prop :=
  ∃ p ∈ dss, ∃ r ∈ p.2.rows, r.1 ≤ d ∧ some v ∈ r.2

/-- An all-null row holds no value. -/
lemma not_mem_noneRow {df : DataFrame} {v : Value} (h : some v ∈ noneRow df) : False := by
  simp [noneRow] at h

/-- Every value in a forward-filled row is from the current row or from the
carried row. -/
lemma mem_ffillRow {v : Value} :
    ∀ {last cur : List Cell}, some v ∈ ffillRow last cur → some v ∈ cur ∨ some v ∈ last := by
  intro last
  induction last with
  | nil => intro cur h; simp [ffillRow] at h
  | cons l ls ih =>
    intro cur h
    cases cur with
    | nil => simp [ffillRow] at h
    | cons c cs =>
      simp only [ffillRow, List.zipWith_cons_cons, List.mem_cons] at h
      rcases h with h | h
      · cases c with
        | some w => left; simp at h; simp [h]
        | none => right; simp at h; simp [h]
      · rcases ih h with h2 | h2
        · exact Or.inl (List.mem_cons_of_mem _ h2)
        · exact Or.inr (List.mem_cons_of_mem _ h2)

/-- Every value in a cell that `df` contributes at date `d` is in a row of
`df` dated exactly `d`. -/
lemma reindexRow_cells {df : DataFrame} {d : Int} {v : Value}
    (hv : some v ∈ reindexRow df d) : ∃ r ∈ df.rows, r.1 = d ∧ some v ∈ r.2 := by
  unfold reindexRow lookupRow at hv
  cases hfind : df.rows.find? (fun r => r.1 = d) with
  | none => rw [hfind] at hv; exact absurd hv not_mem_noneRow
  | some r =>
    rw [hfind] at hv
    refine ⟨r, List.mem_of_find?_eq_some hfind, ?_, hv⟩
    have := List.find?_some hfind
    simpa using this

/-- Dates of a reindexed frame are exactly the target index. -/
lemma reindex_map_fst (df : DataFrame) (idx : List Int) :
    ((df.reindex idx).rows).map Prod.fst = idx := by
  simp only [DataFrame.reindex, List.map_map]
  exact List.map_id idx

/-- Cell values of a reindexed frame at date `d` come from a row of `df`
dated exactly `d`. -/
lemma reindex_cells {df : DataFrame} {idx : List Int} {p : Row}
    (h : p ∈ (df.reindex idx).rows) {v : Value} (hv : some v ∈ p.2) :
    ∃ r ∈ df.rows, r.1 = p.1 ∧ some v ∈ r.2 := by
  simp only [DataFrame.reindex, List.mem_map] at h
  obtain ⟨d, _, hEq⟩ := h
  have h1 : p.1 = d := by rw [← hEq]
  have h2 : p.2 = reindexRow df d := by rw [← hEq]
  rw [h2] at hv
  rw [h1]
  exact reindexRow_cells hv

/-- Traceability through the forward-fill loop: if the carried row and all
input cells satisfy a date-monotone predicate at their row's date, so does
every filled cell. -/
lemma ffillAux_trace {Q : Value → Int → Prop}
    (Qmono : ∀ v a b, a ≤ b → Q v a → Q v b) :
    ∀ (rows : List Row) (last : List Cell),
      (∀ v : Value, some v ∈ last → ∀ r ∈ rows, Q v r.1) →
      List.Pairwise (fun a b => a ≤ b) (rows.map Prod.fst) →
      (∀ r ∈ rows, ∀ v : Value, some v ∈ r.2 → Q v r.1) →
      ∀ r ∈ ffillAux last rows, ∀ v : Value, some v ∈ r.2 → Q v r.1 := by
  intro rows
  induction rows with
  | nil => intro last _ _ _ r hr; simp [ffillAux] at hr
  | cons hd rest ih =>
    obtain ⟨d, vs⟩ := hd
    intro last hlast hsorted hcells r hr v hv
    rw [List.map_cons, List.pairwise_cons] at hsorted
    obtain ⟨hd_le, hrest_sorted⟩ := hsorted
    have hmerge : ∀ w : Value, some w ∈ ffillRow last vs → Q w d := by
      intro w hw
      rcases mem_ffillRow hw with h | h
      · exact hcells (d, vs) (List.mem_cons_self _ _) w h
      · exact hlast w h (d, vs) (List.mem_cons_self _ _)
    simp only [ffillAux, List.mem_cons] at hr
    rcases hr with hEq | hMem
    · have h1 : r.1 = d := by rw [hEq]
      have h2 : r.2 = ffillRow last vs := by rw [hEq]
      rw [h1]
      exact hmerge v (by rw [← h2]; exact hv)
    · refine ih (ffillRow last vs) ?_ hrest_sorted ?_ r hMem v hv
      · intro w hw r' hr'
        exact Qmono w d r'.1 (hd_le r'.1 (List.mem_map_of_mem Prod.fst hr')) (hmerge w hw)
      · intro r' hr' w hw
        exact hcells r' (List.mem_cons_of_mem _ hr') w hw

/-- Rows of a `joinRows` keep the left dates. -/
lemma joinRows_map_fst (lrows : List Row) (r : DataFrame) :
    (joinRows lrows r).map Prod.fst = lrows.map Prod.fst := by
  simp [joinRows]

/-- Traceability through a left join: joined cells are left cells or right
cells looked up at the row's own date. -/
lemma joinRows_trace {lrows : List Row} {r : DataFrame} {Q : Int → Value → Prop}
    (hl : ∀ p ∈ lrows, ∀ v : Value, some v ∈ p.2 → Q p.1 v)
    (hr : ∀ (d : Int) (v : Value), some v ∈ reindexRow r d → Q d v) :
    ∀ p ∈ joinRows lrows r, ∀ v : Value, some v ∈ p.2 → Q p.1 v := by
  intro p hp v hv
  simp only [joinRows, List.mem_map] at hp
  obtain ⟨q, hq, hEq⟩ := hp
  have h1 : p.1 = q.1 := by rw [← hEq]
  have h2 : p.2 = q.2 ++ reindexRow r q.1 := by rw [← hEq]
  rw [h2, List.mem_append] at hv
  rw [h1]
  rcases hv with hv | hv
  · exact hl q hq v hv
  · exact hr q.1 v hv

/-- Unpacking a successful suffix-free join. -/
lemma joinD_ok {l r t : DataFrame} (h : l.joinD r = .ok t) :
    t.cols = l.cols ++ r.cols ∧ t.rows = joinRows l.rows r := by
  unfold DataFrame.joinD at h
  split at h
  · exact ⟨(Except.ok.inj h ▸ rfl : t.cols = _), (Except.ok.inj h ▸ rfl : t.rows = _)⟩
  · exact absurd h (fun hh => Except.noConfusion hh)

/-- The calendar index is weakly sorted. -/
lemma dateRange_pairwise (s e : Int) :
    List.Pairwise (fun a b => a ≤ b) (dateRange s e) := by
  unfold dateRange
  rw [List.pairwise_map]
  refine (List.pairwise_lt_range _).imp ?_
  intro a b hab
  omega

/-- Every date of the calendar index lies inside [s, e]. -/
lemma dateRange_mem_le {s e d : Int} (h : d ∈ dateRange s e) : s ≤ d ∧ d ≤ e := by
  unfold dateRange at h
  simp only [List.mem_map, List.mem_range] at h
  obtain ⟨i, hi, hEq⟩ := h
  subst hEq
  omega

/-- Length of the calendar index. -/
lemma dateRange_length {s e : Int} (h : s ≤ e) :
    (dateRange s e).length = (e - s).toNat + 1 := by
  unfold dateRange
  simp only [List.length_map, List.length_range]
  omega

/-- Trace cells of a whole forward-filled frame, given a date-monotone
cell property of the unfilled frame. -/
lemma ffill_frame_trace (g : DataFrame) (Q : Value → Int → Prop)
    (Qmono : ∀ (v : Value) (a b : Int), a ≤ b → Q v a → Q v b)
    (hsort : List.Pairwise (fun a b => a ≤ b) (g.rows.map Prod.fst))
    (hcells : ∀ r ∈ g.rows, ∀ v : Value, some v ∈ r.2 → Q v r.1) :
    ∀ r ∈ g.ffill.rows, ∀ v : Value, some v ∈ r.2 → Q v r.1 := by
  intro r hr
  exact ffillAux_trace Qmono g.rows (noneRow g)
    (fun v hv => absurd hv not_mem_noneRow) hsort hcells r hr

/-- A successful name lookup means the pair is in the dataset mapping. -/
lemma lookupDF_mem {n : String} {dss : List (String × DataFrame)} {df : DataFrame}
    (h : lookupDF n dss = some df) : (n, df) ∈ dss := by
  unfold lookupDF at h
  cases hfind : dss.find? (fun p => p.1 = n) with
  | none => rw [hfind] at h; cases h
  | some pr =>
    rw [hfind] at h
    obtain ⟨a, b⟩ := pr
    have hm := List.mem_of_find?_eq_some hfind
    have hp : a = n := by simpa using List.find?_some hfind
    have hb : b = df := Option.some.inj h
    rw [← hp, ← hb]
    exact hm

/-- A chosen sparse reference is a non-empty dataset of the mapping. -/
lemma pickRef_mem {dss : List (String × DataFrame)} {rn : String} {rdf : DataFrame}
    (h : pickRef dss = some (rn, rdf)) :
    (rn, rdf) ∈ dss ∧ rdf.rows ≠ [] ∧ lookupDF rn dss = some rdf := by
  unfold pickRef at h
  obtain ⟨nm, _, hf⟩ := List.exists_of_findSome?_eq_some h
  cases hlk : lookupDF nm dss with
  | none => rw [hlk] at hf; cases hf
  | some df =>
    rw [hlk] at hf
    dsimp only at hf
    by_cases hdf : df.rows = []
    · rw [if_pos hdf] at hf; cases hf
    · rw [if_neg hdf] at hf
      have hEq : (nm, df) = (rn, rdf) := Option.some.inj hf
      have h1 : nm = rn := congrArg Prod.fst hEq
      have h2 : df = rdf := congrArg Prod.snd hEq
      rw [h1, h2] at hlk
      rw [h2] at hdf
      exact ⟨lookupDF_mem hlk, hdf, hlk⟩

/-- The sorted union of two date lists is weakly sorted. -/
lemma sortedUnion_pairwise (l1 l2 : List Int) :
    List.Pairwise (fun a b => a ≤ b) (sortedUnion l1 l2) :=
  List.sorted_insertionSort _ _

/-- Cells of the union-fill-project step trace back to the projected
dataset at a timestamp at or before the row's date. -/
lemma sparseProject_trace {df : DataFrame} {refDates : List Int} :
    ∀ p ∈ (sparseProject df refDates).rows, ∀ v : Value, some v ∈ p.2 →
      ∃ q ∈ df.rows, q.1 ≤ p.1 ∧ some v ∈ q.2 := by
  intro p hp v hv
  unfold sparseProject at hp
  obtain ⟨rr, hrr, hrd, hrv⟩ := reindex_cells hp hv
  have htr := ffill_frame_trace
    (df.reindex (sortedUnion (df.rows.map Prod.fst) refDates))
    (fun w d => ∃ q ∈ df.rows, q.1 ≤ d ∧ some w ∈ q.2)
    (fun w a b hab hw => by
      obtain ⟨q, hq, hqa, hqw⟩ := hw
      exact ⟨q, hq, le_trans hqa hab, hqw⟩)
    (by rw [reindex_map_fst]; exact sortedUnion_pairwise _ _)
    (fun r' hr' w hw => by
      obtain ⟨q, hq, hqd, hqw⟩ := reindex_cells hr' hw
      exact ⟨q, hq, le_of_eq hqd, hqw⟩)
    rr hrr v hrv
  rw [hrd] at htr
  exact htr

/-- Traceability through the dense join loop. -/
lemma denseFold_trace {dss : List (String × DataFrame)} {idx : List Int}
    (hidx : List.Pairwise (fun a b => a ≤ b) idx) :
    ∀ (l : List (String × DataFrame)) (acc t : DataFrame),
      (∀ p ∈ l, p ∈ dss) →
      (∀ r ∈ acc.rows, ∀ v : Value, some v ∈ r.2 → Traces dss r.1 v) →
      denseFold idx l acc = .ok t →
      ∀ r ∈ t.rows, ∀ v : Value, some v ∈ r.2 → Traces dss r.1 v := by
  intro l
  induction l with
  | nil =>
    intro acc t _ hacc heq
    have : acc = t := Except.ok.inj heq
    rw [← this]
    exact hacc
  | cons hd rest ih =>
    obtain ⟨n, df⟩ := hd
    intro acc t hmem hacc heq
    by_cases hdf : df.rows = []
    · rw [denseFold, if_pos hdf] at heq
      exact ih acc t (fun q hq => hmem q (List.mem_cons_of_mem _ hq)) hacc heq
    · rw [denseFold, if_neg hdf] at heq
      cases hjoin : acc.joinD ((df.reindex idx).ffill) with
      | error m => rw [hjoin] at heq; exact absurd heq (fun hh => Except.noConfusion hh)
      | ok acc2 =>
        rw [hjoin] at heq
        refine ih acc2 t (fun q hq => hmem q (List.mem_cons_of_mem _ hq)) ?_ heq
        obtain ⟨_, hrows⟩ := joinD_ok hjoin
        rw [hrows]
        refine joinRows_trace hacc ?_
        intro d v hv
        obtain ⟨rr, hrr, hrd, hrv⟩ := reindexRow_cells hv
        have htr := ffill_frame_trace
          (df.reindex idx)
          (fun w d' => ∃ q ∈ df.rows, q.1 ≤ d' ∧ some w ∈ q.2)
          (fun w a b hab hw => by
            obtain ⟨q, hq, hqa, hqw⟩ := hw
            exact ⟨q, hq, le_trans hqa hab, hqw⟩)
          (by rw [reindex_map_fst]; exact hidx)
          (fun r' hr' w hw => by
            obtain ⟨q, hq, hqd, hqw⟩ := reindex_cells hr' hw
            exact ⟨q, hq, le_of_eq hqd, hqw⟩)
          rr hrr v hrv
        obtain ⟨q, hq, hqa, hqw⟩ := htr
        exact ⟨(n, df), hmem (n, df) (List.mem_cons_self _ _), q, hq,
          le_of_le_of_eq hqa hrd, hqw⟩

/-- Traceability through the sparse join loop. -/
lemma sparseFold_trace {dss : List (String × DataFrame)} {refDates : List Int} {rn : String} :
    ∀ (l : List (String × DataFrame)) (acc : DataFrame),
      (∀ p ∈ l, p ∈ dss) →
      (∀ r ∈ acc.rows, ∀ v : Value, some v ∈ r.2 → Traces dss r.1 v) →
      ∀ r ∈ (sparseFold refDates rn l acc).rows, ∀ v : Value, some v ∈ r.2 →
        Traces dss r.1 v := by
  intro l
  induction l with
  | nil => intro acc _ hacc; exact hacc
  | cons hd rest ih =>
    obtain ⟨n, df⟩ := hd
    intro acc hmem hacc
    by_cases hskip : n = rn ∨ df.rows = []
    · rw [sparseFold, if_pos hskip]
      exact ih acc (fun q hq => hmem q (List.mem_cons_of_mem _ hq)) hacc
    · rw [sparseFold, if_neg hskip]
      refine ih _ (fun q hq => hmem q (List.mem_cons_of_mem _ hq)) ?_
      show ∀ r ∈ (joinRows acc.rows (sparseProject df refDates)), _
      refine joinRows_trace hacc ?_
      intro d v hv
      obtain ⟨rr, hrr, hrd, hrv⟩ := reindexRow_cells hv
      obtain ⟨q, hq, hqa, hqw⟩ := sparseProject_trace rr hrr v hrv
      exact ⟨(n, df), hmem (n, df) (List.mem_cons_self _ _), q, hq,
        le_of_le_of_eq (le_trans hqa (le_of_eq hrd)) rfl, hqw⟩

/-- The dense join loop never changes the row dates of the accumulator. -/
lemma denseFold_map_fst {idx : List Int} :
    ∀ (l : List (String × DataFrame)) (acc t : DataFrame),
      denseFold idx l acc = .ok t → t.rows.map Prod.fst = acc.rows.map Prod.fst := by
  intro l
  induction l with
  | nil => intro acc t heq; rw [← Except.ok.inj heq]
  | cons hd rest ih =>
    obtain ⟨n, df⟩ := hd
    intro acc t heq
    by_cases hdf : df.rows = []
    · rw [denseFold, if_pos hdf] at heq; exact ih acc t heq
    · rw [denseFold, if_neg hdf] at heq
      cases hjoin : acc.joinD ((df.reindex idx).ffill) with
      | error m => rw [hjoin] at heq; exact absurd heq (fun hh => Except.noConfusion hh)
      | ok acc2 =>
        rw [hjoin] at heq
        have h2 := ih acc2 t heq
        obtain ⟨_, hrows⟩ := joinD_ok hjoin
        rw [h2, hrows, joinRows_map_fst]

/-- The sparse join loop never changes the row dates of the accumulator. -/
lemma sparseFold_map_fst {refDates : List Int} {rn : String} :
    ∀ (l : List (String × DataFrame)) (acc : DataFrame),
      (sparseFold refDates rn l acc).rows.map Prod.fst = acc.rows.map Prod.fst := by
  intro l
  induction l with
  | nil => intro acc; rfl
  | cons hd rest ih =>
    obtain ⟨n, df⟩ := hd
    intro acc
    by_cases hskip : n = rn ∨ df.rows = []
    · rw [sparseFold, if_pos hskip]; exact ih acc
    · rw [sparseFold, if_neg hskip]
      rw [ih]
      show (joinRows acc.rows _).map Prod.fst = _
      exact joinRows_map_fst _ _

/-- C1.  No fabrication: for every range with start ≤ end and both
alignment modes, every cell of the returned table is either null or equals
a value that exists verbatim in one of the input datasets at a timestamp at
or before that row's date — never a value from strictly after the row's
date and never a synthesized value. -/
theorem no_fabrication (start e : Int) (dss : List (String × DataFrame)) (hse : start ≤ e) :
    (∀ t, alignDense start e dss = .ok t →
      ∀ r ∈ t.rows, ∀ v : Value, some v ∈ r.2 → Traces dss r.1 v)
    ∧ (∀ r ∈ (alignSparse start e dss).rows, ∀ v : Value, some v ∈ r.2 →
        Traces dss r.1 v) := by
  constructor
  · intro t ht r hr v hv
    unfold alignDense at ht
    by_cases hall : ∀ p ∈ dss, p.2.rows = []
    · rw [if_pos hall] at ht
      rw [← Except.ok.inj ht] at hr
      simp [emptyDF] at hr
    · rw [if_neg hall] at ht
      dsimp only at ht
      cases hfold : denseFold (dateRange start e) dss
          ⟨[], (dateRange start e).map (fun d => (d, ([] : List Cell)))⟩ with
      | error m => rw [hfold] at ht; exact absurd ht (fun hh => Except.noConfusion hh)
      | ok t0 =>
        rw [hfold] at ht
        simp only [Except.map] at ht
        have ht' : t = t0.clip start e := (Except.ok.inj ht).symm
        have hr0 : r ∈ t0.rows := by
          rw [ht'] at hr
          exact List.mem_of_mem_filter hr
        refine denseFold_trace (dateRange_pairwise start e) dss _ t0
          (fun q hq => hq) ?_ hfold r hr0 v hv
        intro r' hr' w hw
        simp only [List.mem_map] at hr'
        obtain ⟨d, _, hEq⟩ := hr'
        have : r'.2 = [] := by rw [← hEq]
        rw [this] at hw
        exact absurd hw (List.not_mem_nil _)
  · intro r hr v hv
    unfold alignSparse at hr
    cases hpick : pickRef dss with
    | none => rw [hpick] at hr; simp [emptyDF] at hr
    | some pr =>
      obtain ⟨rn, rdf⟩ := pr
      rw [hpick] at hr
      dsimp only at hr
      by_cases hrefF : rdf.rows.filter (fun q => decide (start ≤ q.1 ∧ q.1 ≤ e)) = []
      · rw [if_pos hrefF] at hr; simp [emptyDF] at hr
      · rw [if_neg hrefF] at hr
        obtain ⟨hmem_ref, _, _⟩ := pickRef_mem hpick
        refine sparseFold_trace dss _ (fun q hq => hq) ?_ r hr v hv
        show ∀ p ∈ joinRows _ _, _
        refine joinRows_trace ?_ ?_
        · intro p hp w hw
          simp only [List.mem_map] at hp
          obtain ⟨q, _, hEq⟩ := hp
          have : p.2 = [] := by rw [← hEq]
          rw [this] at hw
          exact absurd hw (List.not_mem_nil _)
        · intro d w hw
          obtain ⟨q, hq, hqd, hqw⟩ := reindexRow_cells hw
          have hq' : q ∈ rdf.rows := List.mem_of_mem_filter hq
          exact ⟨(rn, rdf), hmem_ref, q, hq', le_of_eq hqd, hqw⟩

/-- C1 witness: on a concrete run (range [1, 2], dense mode) the filled
cell on day 2 traces to the real input point of day 1. -/
theorem no_fabrication_witness : Traces c1Dss 2 (Value.num 7) :=
  (no_fabrication 1 2 c1Dss (by decide)).1
    ⟨["price_close"], [(1, [some (Value.num 7)]), (2, [some (Value.num 7)])]⟩
    (by decide) (2, [some (Value.num 7)]) (by decide) (Value.num 7) (by decide)

/-- C3.  Dense completeness: with start ≤ end, the dense aligner returns
the empty table when every dataset is empty, and otherwise every table it
returns has exactly (end - start) + 1 rows, one per calendar day of
[start, end] inclusive. -/
theorem dense_completeness (start e : Int) (dss : List (String × DataFrame)) (hse : start ≤ e) :
    ((∀ p ∈ dss, p.2.rows = []) → alignDense start e dss = .ok emptyDF)
    ∧ (∀ t, alignDense start e dss = .ok t → (∃ p ∈ dss, p.2.rows ≠ []) →
        t.rows.length = (e - start).toNat + 1 ∧ t.rows.map Prod.fst = dateRange start e) := by
  constructor
  · intro hall
    unfold alignDense
    rw [if_pos hall]
  · intro t ht hne
    have hall : ¬ ∀ p ∈ dss, p.2.rows = [] := by
      obtain ⟨p, hp, hpne⟩ := hne
      exact fun h => hpne (h p hp)
    unfold alignDense at ht
    rw [if_neg hall] at ht
    dsimp only at ht
    cases hfold : denseFold (dateRange start e) dss
        ⟨[], (dateRange start e).map (fun d => (d, ([] : List Cell)))⟩ with
    | error m => rw [hfold] at ht; exact absurd ht (fun hh => Except.noConfusion hh)
    | ok t0 =>
      rw [hfold] at ht
      simp only [Except.map] at ht
      have ht' : t = t0.clip start e := (Except.ok.inj ht).symm
      have hfst : t0.rows.map Prod.fst = dateRange start e := by
        have h1 := denseFold_map_fst dss _ t0 hfold
        rw [h1]
        simp only [List.map_map]
        exact List.map_id _
      have hclip : (t0.clip start e).rows = t0.rows := by
        unfold DataFrame.clip
        refine List.filter_eq_self.mpr ?_
        intro r hr
        have : r.1 ∈ dateRange start e := by
          rw [← hfst]
          exact List.mem_map_of_mem Prod.fst hr
        have hb := dateRange_mem_le this
        simpa using hb
      constructor
      · rw [ht']
        show (t0.clip start e).rows.length = _
        rw [hclip]
        have : t0.rows.length = (dateRange start e).length := by
          rw [← hfst, List.length_map]
        rw [this, dateRange_length hse]
      · rw [ht']
        show ((t0.clip start e).rows).map Prod.fst = _
        rw [hclip, hfst]

/-- C3 witness: the concrete dense run over [1, 3] has 3 = (3 - 1) + 1
rows. -/
theorem dense_completeness_witness :
    alignDense 1 3 c3Dss = .ok c3Expected ∧
      c3Expected.rows.length = ((3 : Int) - 1).toNat + 1 :=
  ⟨by decide,
   ((dense_completeness 1 3 c3Dss (by decide)).2 c3Expected (by decide) (by decide)).1⟩

/-- C2.  The dense aligner reindexes each dataset onto the requested
calendar only (`df.reindex(date_index)` before `ffill`), so a value dated
strictly before `start` is dropped instead of forward-filled: with a single
financials point at day 0 and range [1, 5], all five rows are null, even
though the input holds a value at a timestamp ≤ every row's date.  This
contradicts the function's own docstring ("Columns are NaN where no data
exists at or before that date") and spec Scenario C. -/
theorem dense_drops_prestart_values :
    alignDense 1 5 c2Datasets =
      .ok ⟨["revenue_fy"],
        [(1, [none]), (2, [none]), (3, [none]), (4, [none]), (5, [none])]⟩
    ∧ ∃ r ∈ c2Financials.rows, r.1 ≤ 1 ∧ r.2 = [some (Value.num 500)] := by
  constructor
  · decide
  · exact ⟨(0, [some (Value.num 500)]), by decide, by decide, rfl⟩

/-- A successful `findSome?` splits its list at the first hit. -/
lemma findSome?_split {α β : Type} (f : α → Option β) :
    ∀ (l : List α) (b : β), l.findSome? f = some b →
      ∃ l1 a l2, l = l1 ++ a :: l2 ∧ f a = some b ∧ ∀ x ∈ l1, f x = none := by
  intro l
  induction l with
  | nil => intro b h; simp [List.findSome?] at h
  | cons a rest ih =>
    intro b h
    cases hfa : f a with
    | some cc =>
      rw [List.findSome?_cons, hfa] at h
      exact ⟨[], a, rest, rfl, by rw [hfa, Option.some.inj h], fun x hx => absurd hx (List.not_mem_nil _)⟩
    | none =>
      rw [List.findSome?_cons, hfa] at h
      obtain ⟨l1, x, l2, hsplit, hfx, hnone⟩ := ih b h
      refine ⟨a :: l1, x, l2, by rw [hsplit]; rfl, hfx, ?_⟩
      intro y hy
      rcases List.mem_cons.mp hy with hEq | hMem
      · rw [hEq]; exact hfa
      · exact hnone y hMem

/-- C4.  Sparse anchoring with deterministic reference selection: the
reference is the first non-empty dataset in the fixed policy order
executives (the spec's "organization") → filings → financials → news →
prices, independent of point counts; the output row index is exactly the
reference's timestamps inside [start, end]; and the empty table is
returned when no dataset qualifies or when no reference point lies in
range. -/
theorem sparse_anchoring (start e : Int) (dss : List (String × DataFrame)) :
    SPARSITY_ORDER = ["executives", "filings", "financials", "news", "prices"]
    ∧ (pickRef dss = none → alignSparse start e dss = emptyDF)
    ∧ (∀ rn rdf, pickRef dss = some (rn, rdf) →
        lookupDF rn dss = some rdf ∧ rdf.rows ≠ []
        ∧ (∃ pre post, SPARSITY_ORDER = pre ++ rn :: post ∧
            ∀ m ∈ pre, ∀ df, lookupDF m dss = some df → df.rows = [])
        ∧ (rdf.rows.filter (fun r => decide (start ≤ r.1 ∧ r.1 ≤ e)) = [] →
            alignSparse start e dss = emptyDF)
        ∧ (alignSparse start e dss).rows.map Prod.fst =
            (rdf.rows.filter (fun r => decide (start ≤ r.1 ∧ r.1 ≤ e))).map Prod.fst) := by
  refine ⟨rfl, ?_, ?_⟩
  · intro h
    unfold alignSparse
    rw [h]
  · intro rn rdf hpick
    obtain ⟨hmem, hne, hlk⟩ := pickRef_mem hpick
    refine ⟨hlk, hne, ?_, ?_, ?_⟩
    · obtain ⟨l1, nm, l2, hsplit, hf, hnone⟩ := findSome?_split _ _ _ hpick
      have hnm : nm = rn := by
        cases hlkm : lookupDF nm dss with
        | none => rw [hlkm] at hf; cases hf
        | some df =>
          rw [hlkm] at hf
          dsimp only at hf
          by_cases hdf : df.rows = []
          · rw [if_pos hdf] at hf; cases hf
          · rw [if_neg hdf] at hf
            exact congrArg Prod.fst (Option.some.inj hf)
      refine ⟨l1, l2, by rw [← hnm]; exact hsplit, ?_⟩
      intro m hm df hlkdf
      have := hnone m hm
      rw [hlkdf] at this
      dsimp only at this
      by_cases hdf : df.rows = []
      · exact hdf
      · rw [if_neg hdf] at this; cases this
    · intro hempty
      unfold alignSparse
      rw [hpick]
      dsimp only
      rw [if_pos hempty]
    · unfold alignSparse
      rw [hpick]
      dsimp only
      by_cases hempty : rdf.rows.filter (fun r => decide (start ≤ r.1 ∧ r.1 ≤ e)) = []
      · rw [if_pos hempty, hempty]
        simp [emptyDF]
      · rw [if_neg hempty]
        rw [sparseFold_map_fst]
        show (joinRows _ _).map Prod.fst = _
        rw [joinRows_map_fst]
        simp only [List.map_map]
        rfl

/-- C4 witness: on the concrete run the sparse row index equals the
executive snapshot dates inside [0, 180]. -/
theorem sparse_anchoring_witness :
    (alignSparse 0 180 c4Dss).rows.map Prod.fst =
      (c4Ex.rows.filter (fun r => decide ((0 : Int) ≤ r.1 ∧ r.1 ≤ 180))).map Prod.fst :=
  ((sparse_anchoring 0 180 c4Dss).2.2 "executives" c4Ex (by decide)).2.2.2.2

/-- Reaching a dataset whose columns collide with the accumulator makes the
suffix-free dense join loop fail. -/
lemma denseFold_error_inner {idx : List Int} {c nB : String} {B : DataFrame}
    (hBne : ¬ B.rows = []) (hcB : c ∈ B.cols) :
    ∀ (mid post : List (String × DataFrame)) (acc : DataFrame), c ∈ acc.cols →
      ∃ m, denseFold idx (mid ++ (nB, B) :: post) acc = .error m := by
  intro mid
  induction mid with
  | nil =>
    intro post acc hacc
    simp only [List.nil_append]
    have hcontains : acc.cols.contains c = true := List.elem_eq_true_of_mem hacc
    have hfilter : c ∈ ((B.reindex idx).ffill).cols.filter (fun c' => acc.cols.contains c') :=
      List.mem_filter.mpr ⟨hcB, hcontains⟩
    have hne : ¬ ((((B.reindex idx).ffill).cols.filter
        (fun c' => acc.cols.contains c')).isEmpty = true) := by
      intro hempty
      rw [List.isEmpty_iff.mp hempty] at hfilter
      exact absurd hfilter (List.not_mem_nil _)
    have hjoin : acc.joinD ((B.reindex idx).ffill) =
        .error "columns overlap but no suffix specified" := by
      unfold DataFrame.joinD
      rw [if_neg hne]
    exact ⟨"columns overlap but no suffix specified",
      by rw [denseFold, if_neg hBne, hjoin]⟩
  | cons p mid' ih =>
    intro post acc hacc
    obtain ⟨n, df⟩ := p
    by_cases hdf : df.rows = []
    · obtain ⟨m, hm⟩ := ih post acc hacc
      exact ⟨m, by rw [List.cons_append, denseFold, if_pos hdf]; exact hm⟩
    · cases hjoin : acc.joinD ((df.reindex idx).ffill) with
      | error m => exact ⟨m, by rw [List.cons_append, denseFold, if_neg hdf, hjoin]⟩
      | ok acc2 =>
        have hacc2 : c ∈ acc2.cols := by
          obtain ⟨hcols, _⟩ := joinD_ok hjoin
          rw [hcols]
          exact List.mem_append_left _ hacc
        obtain ⟨m, hm⟩ := ih post acc2 hacc2
        exact ⟨m, by rw [List.cons_append, denseFold, if_neg hdf, hjoin]; exact hm⟩

/-- Two non-empty datasets sharing a column name anywhere in the list make
the suffix-free dense join loop fail. -/
lemma denseFold_error_outer (idx : List Int) {c nA nB : String} {A B : DataFrame}
    (hAne : ¬ A.rows = []) (hBne : ¬ B.rows = []) (hcA : c ∈ A.cols) (hcB : c ∈ B.cols) :
    ∀ (pre mid post : List (String × DataFrame)) (acc : DataFrame),
      ∃ m, denseFold idx (pre ++ (nA, A) :: (mid ++ (nB, B) :: post)) acc = .error m := by
  intro pre
  induction pre with
  | nil =>
    intro mid post acc
    simp only [List.nil_append]
    cases hjoin : acc.joinD ((A.reindex idx).ffill) with
    | error m => exact ⟨m, by rw [denseFold, if_neg hAne, hjoin]⟩
    | ok acc2 =>
      have hacc2 : c ∈ acc2.cols := by
        obtain ⟨hcols, _⟩ := joinD_ok hjoin
        rw [hcols]
        exact List.mem_append_right _ hcA
      obtain ⟨m, hm⟩ := denseFold_error_inner hBne hcB mid post acc2 hacc2
      exact ⟨m, by rw [denseFold, if_neg hAne, hjoin]; exact hm⟩
  | cons p pre' ih =>
    intro mid post acc
    obtain ⟨n, df⟩ := p
    by_cases hdf : df.rows = []
    · obtain ⟨m, hm⟩ := ih mid post acc
      exact ⟨m, by rw [List.cons_append, denseFold, if_pos hdf]; exact hm⟩
    · cases hjoin : acc.joinD ((df.reindex idx).ffill) with
      | error m => exact ⟨m, by rw [List.cons_append, denseFold, if_neg hdf, hjoin]⟩
      | ok acc2 =>
        obtain ⟨m, hm⟩ := ih mid post acc2
        exact ⟨m, by rw [List.cons_append, denseFold, if_neg hdf, hjoin]; exact hm⟩

/-- The sparse join loop only ever appends columns. -/
lemma sparseFold_cols_mono {refDates : List Int} {rn : String} :
    ∀ (l : List (String × DataFrame)) (acc : DataFrame),
      ∃ ext, (sparseFold refDates rn l acc).cols = acc.cols ++ ext := by
  intro l
  induction l with
  | nil => intro acc; exact ⟨[], (List.append_nil _).symm⟩
  | cons p rest ih =>
    obtain ⟨n, df⟩ := p
    intro acc
    by_cases hskip : n = rn ∨ df.rows = []
    · rw [sparseFold, if_pos hskip]; exact ih acc
    · rw [sparseFold, if_neg hskip]
      obtain ⟨ext, hext⟩ := ih (acc.joinS (sparseProject df refDates) ("_" ++ n))
      refine ⟨(sparseProject df refDates).cols.map
        (fun c' => if acc.cols.contains c' then c' ++ ("_" ++ n) else c') ++ ext, ?_⟩
      rw [hext]
      show (acc.cols ++ _) ++ ext = acc.cols ++ (_ ++ ext)
      rw [List.append_assoc]

/-- When a non-reference, non-empty dataset's column already exists among
the previously joined columns, the sparse join loop keeps it under the
dataset-name suffix. -/
lemma sparseFold_suffix {refDates : List Int} {rn c nB : String} {B : DataFrame}
    (hnB : ¬ nB = rn) (hBne : ¬ B.rows = []) (hcB : c ∈ B.cols) :
    ∀ (pre post : List (String × DataFrame)) (acc : DataFrame),
      (c ∈ acc.cols ∨ ∃ p ∈ pre, p.1 ≠ rn ∧ p.2.rows ≠ [] ∧ c ∈ p.2.cols) →
      (c ++ "_" ++ nB) ∈ (sparseFold refDates rn (pre ++ (nB, B) :: post) acc).cols := by
  intro pre
  induction pre with
  | nil =>
    intro post acc hdisj
    have hacc : c ∈ acc.cols := by
      rcases hdisj with h | ⟨p, hp, _⟩
      · exact h
      · exact absurd hp (List.not_mem_nil _)
    simp only [List.nil_append]
    rw [sparseFold, if_neg (not_or.mpr ⟨hnB, hBne⟩)]
    obtain ⟨ext, hext⟩ := sparseFold_cols_mono post
      (acc.joinS (sparseProject B refDates) ("_" ++ nB))
    rw [hext]
    refine List.mem_append_left _ ?_
    show (c ++ "_" ++ nB) ∈ acc.cols ++ (sparseProject B refDates).cols.map
      (fun c' => if acc.cols.contains c' then c' ++ ("_" ++ nB) else c')
    refine List.mem_append_right _ (List.mem_map.mpr ⟨c, hcB, ?_⟩)
    rw [if_pos (List.elem_eq_true_of_mem hacc), String.append_assoc]
  | cons p pre' ih =>
    intro post acc hdisj
    obtain ⟨n, df⟩ := p
    rw [List.cons_append]
    by_cases hskip : n = rn ∨ df.rows = []
    · rw [sparseFold, if_pos hskip]
      refine ih post acc ?_
      rcases hdisj with h | ⟨q, hq, hq1, hq2, hq3⟩
      · exact Or.inl h
      · rcases List.mem_cons.mp hq with hEq | hMem
        · exfalso
          rcases hskip with h1 | h2
          · exact hq1 (by rw [hEq]; exact h1)
          · exact hq2 (by rw [hEq]; exact h2)
        · exact Or.inr ⟨q, hMem, hq1, hq2, hq3⟩
    · rw [sparseFold, if_neg hskip]
      refine ih post _ ?_
      rcases hdisj with h | ⟨q, hq, hq1, hq2, hq3⟩
      · refine Or.inl ?_
        show c ∈ acc.cols ++ _
        exact List.mem_append_left _ h
      · rcases List.mem_cons.mp hq with hEq | hMem
        · refine Or.inl ?_
          by_cases haccc : c ∈ acc.cols
          · show c ∈ acc.cols ++ _
            exact List.mem_append_left _ haccc
          · show c ∈ acc.cols ++ (sparseProject df refDates).cols.map
              (fun c' => if acc.cols.contains c' then c' ++ ("_" ++ n) else c')
            refine List.mem_append_right _ (List.mem_map.mpr ⟨c, ?_, ?_⟩)
            · have h3 : c ∈ q.2.cols := hq3
              rw [hEq] at h3
              exact h3
            · rw [if_neg (fun hcon => haccc (List.mem_of_elem_eq_true hcon))]
        · exact Or.inr ⟨q, hMem, hq1, hq2, hq3⟩

/-- C10.  Column-name collisions are handled only in sparse mode: when two
non-empty datasets supply a column with the same name, the dense aligner's
suffix-free left-join raises an error instead of returning a table, while
the sparse aligner still returns a table in which the later-joined copy of
the column is suffixed with its dataset name. -/
theorem collision_handling (start e : Int) (c : String) (dss : List (String × DataFrame)) :
    (∀ (pre mid post : List (String × DataFrame)) (nA nB : String) (A B : DataFrame),
        dss = pre ++ (nA, A) :: (mid ++ (nB, B) :: post) →
        A.rows ≠ [] → B.rows ≠ [] → c ∈ A.cols → c ∈ B.cols →
        ∃ m, alignDense start e dss = .error m)
    ∧ (∀ (rn : String) (rdf : DataFrame) (pre post : List (String × DataFrame))
          (nB : String) (B : DataFrame),
        pickRef dss = some (rn, rdf) →
        rdf.rows.filter (fun r => decide (start ≤ r.1 ∧ r.1 ≤ e)) ≠ [] →
        dss = pre ++ (nB, B) :: post →
        nB ≠ rn → B.rows ≠ [] → c ∈ B.cols →
        (c ∈ rdf.cols ∨ ∃ p ∈ pre, p.1 ≠ rn ∧ p.2.rows ≠ [] ∧ c ∈ p.2.cols) →
        (c ++ "_" ++ nB) ∈ (alignSparse start e dss).cols) := by
  constructor
  · intro pre mid post nA nB A B hsplit hAne hBne hcA hcB
    have hnotall : ¬ ∀ p ∈ dss, p.2.rows = [] := by
      intro hall
      refine hAne (hall (nA, A) ?_)
      rw [hsplit]
      exact List.mem_append_right _ (List.mem_cons_self _ _)
    unfold alignDense
    rw [if_neg hnotall]
    obtain ⟨m, hm⟩ := denseFold_error_outer (dateRange start e)
      hAne hBne hcA hcB pre mid post
      ⟨[], (dateRange start e).map (fun d => (d, ([] : List Cell)))⟩
    rw [← hsplit] at hm
    exact ⟨m, by dsimp only; rw [hm]; rfl⟩
  · intro rn rdf pre post nB B hpick hrefF hsplit hnB hBne hcB hdisj
    unfold alignSparse
    rw [hpick]
    dsimp only
    rw [if_neg hrefF]
    have hacc0cols : (DataFrame.joinS ⟨[], (rdf.rows.filter
        (fun r => decide (start ≤ r.1 ∧ r.1 ≤ e))).map (fun r => (r.1, ([] : List Cell)))⟩
        ⟨rdf.cols, rdf.rows.filter (fun r => decide (start ≤ r.1 ∧ r.1 ≤ e))⟩ "").cols
        = rdf.cols := by
      show [] ++ rdf.cols.map (fun c' => if ([] : List String).contains c' then c' ++ "" else c') = _
      simp
    rw [hsplit]
    refine sparseFold_suffix hnB hBne hcB pre post _ ?_
    rcases hdisj with h | h
    · exact Or.inl (by rw [hacc0cols]; exact h)
    · exact Or.inr h

/-- C10 witness: on the concrete run the dense aligner fails and the
sparse aligner returns the colliding news column as "x_news". -/
theorem collision_handling_witness :
    (∃ m, alignDense 1 4 c10Dss = .error m)
    ∧ ("x" ++ "_" ++ "news") ∈ (alignSparse 1 4 c10Dss).cols := by
  constructor
  · exact (collision_handling 1 4 "x" c10Dss).1
      [("prices", emptyDF)] [("filings", emptyDF)] [("executives", emptyDF)]
      "financials" "news" ⟨["x"], [(2, [some (Value.num 9)])]⟩
      ⟨["x"], [(3, [some (Value.num 10)])]⟩ rfl (by decide) (by decide) (by decide) (by decide)
  · exact (collision_handling 1 4 "x" c10Dss).2
      "financials" ⟨["x"], [(2, [some (Value.num 9)])]⟩
      [("prices", emptyDF), ("financials", ⟨["x"], [(2, [some (Value.num 9)])]⟩),
       ("filings", emptyDF)] [("executives", emptyDF)]
      "news" ⟨["x"], [(3, [some (Value.num 10)])]⟩
      (by decide) (by decide) rfl (by decide) (by decide) (by decide)
      (Or.inl (by decide))

/-! ## Router validation, empty results, loader errors, determinism -/

/-- C6 counterexample: the endpoint's recognized mode strings are "daily"
and "sparse", not "dense" and "sparse" — with a valid range, the request
mode "dense" (recognized according to the claim) is rejected with the
unsupported-mode error. -/
theorem mode_dense_rejected :
    routerValidate 0 5 "dense" = some ApiError.unsupportedMode ∧ (0 : Int) ≤ 5 :=
  ⟨by decide, by decide⟩

/-- C6 amended: the endpoint rejects with `invalidRange` exactly when
start > end (checked first), otherwise rejects with `unsupportedMode`
exactly when the mode is outside the recognized strings "daily"/"sparse",
and a rejected request returns the validation error before any dataset is
read: the result is the same for every source-file state and clock. -/
theorem router_validation (start e : Int) (mode : String) (ticker : String)
    (files files' : SourceFiles) (today today' : Int) :
    (routerValidate start e mode = some ApiError.invalidRange ↔ start > e)
    ∧ (routerValidate start e mode = some ApiError.unsupportedMode ↔
        (start ≤ e ∧ mode ≠ "daily" ∧ mode ≠ "sparse"))
    ∧ (routerValidate start e mode = none ↔
        (start ≤ e ∧ (mode = "daily" ∨ mode = "sparse")))
    ∧ (∀ err, routerValidate start e mode = some err →
        routerHandle ticker start e mode files today = .error err ∧
        routerHandle ticker start e mode files today =
          routerHandle ticker start e mode files' today') := by
  refine ⟨?_, ?_, ?_, ?_⟩
  · unfold routerValidate
    by_cases h1 : e < start
    · rw [if_pos h1]
      exact ⟨fun _ => by omega, fun _ => rfl⟩
    · rw [if_neg h1]
      by_cases h2 : ¬(mode = "daily" ∨ mode = "sparse")
      · rw [if_pos h2]
        constructor
        · intro h; cases h
        · intro h; omega
      · rw [if_neg h2]
        constructor
        · intro h; cases h
        · intro h; omega
  · unfold routerValidate
    by_cases h1 : e < start
    · rw [if_pos h1]
      constructor
      · intro h; cases h
      · intro ⟨h, _⟩; omega
    · rw [if_neg h1]
      by_cases h2 : ¬(mode = "daily" ∨ mode = "sparse")
      · rw [if_pos h2]
        constructor
        · intro _
          refine ⟨by omega, ?_, ?_⟩ <;> intro hEq <;> exact h2 (by rw [hEq]; simp)
        · intro _; rfl
      · rw [if_neg h2]
        constructor
        · intro h; cases h
        · intro ⟨_, hd, hs⟩
          exfalso
          rcases not_not.mp h2 with h | h
          · exact hd h
          · exact hs h
  · unfold routerValidate
    by_cases h1 : e < start
    · rw [if_pos h1]
      constructor
      · intro h; cases h
      · intro ⟨h, _⟩; omega
    · rw [if_neg h1]
      by_cases h2 : ¬(mode = "daily" ∨ mode = "sparse")
      · rw [if_pos h2]
        constructor
        · intro h; cases h
        · intro ⟨_, h⟩; exact absurd h h2
      · rw [if_neg h2]
        exact ⟨fun _ => ⟨by omega, not_not.mp h2⟩, fun _ => rfl⟩
  · intro err herr
    constructor
    · unfold routerHandle
      rw [herr]
    · unfold routerHandle
      rw [herr]

/-- C6 witness: a concrete reversed range is rejected with the
invalid-range error before any load. -/
theorem router_validation_witness :
    routerHandle "T" 5 0 "daily" c6Files 0 = .error ApiError.invalidRange :=
  ((router_validation 5 0 "daily" "T" c6Files c6Files 0 0).2.2.2
    ApiError.invalidRange (by decide)).1

/-- C7 counterexample: the two distinct empty causes — no datasets at all
versus all points excluded by the range — produce byte-identical responses
carrying the same single generic message, so no distinguishing reason code
is returned. -/
theorem empty_reason_not_distinguished :
    routerHandle "T" 0 5 "sparse" c7NoData 0 = routerHandle "T" 0 5 "sparse" c7OutOfRange 0
    ∧ routerHandle "T" 0 5 "sparse" c7NoData 0 = .ok (emptyResponse "T" 0 5 "sparse") :=
  ⟨by decide, by decide⟩

/-- C7 amended: whenever alignment produces zero rows the endpoint returns
the one generic empty response (fixed message "No ingested data found…"),
regardless of the cause. -/
theorem empty_reason_generic (ticker : String) (start e : Int) (mode : String)
    (files : SourceFiles) (today : Int) (r : Response)
    (hok : routerHandle ticker start e mode files today = .ok r)
    (h0 : r.rowCount = 0) :
    r = emptyResponse ticker start e mode ∧ r.metaMessage = emptyMessage := by
  unfold routerHandle at hok
  split at hok
  · cases hok
  · split at hok
    · cases hok
    · split at hok
      · cases hok
      · rename_i df halign
        split at hok
        · have hinj := Except.ok.inj hok
          exact ⟨hinj.symm, by rw [← hinj]; rfl⟩
        · rename_i hempty
          have hr := Except.ok.inj hok
          exfalso
          have hrc : r.rowCount = df.rows.length := by rw [← hr]
          rw [h0] at hrc
          exact hempty (List.length_eq_zero.mp hrc.symm)

/-- C7 witness: the out-of-range run satisfies the theorem's hypotheses and
its zero-row response is the generic one. -/
theorem empty_reason_generic_witness :
    emptyResponse "T" 0 5 "sparse" = emptyResponse "T" 0 5 "sparse"
    ∧ (emptyResponse "T" 0 5 "sparse").metaMessage = emptyMessage :=
  empty_reason_generic "T" 0 5 "sparse" c7OutOfRange 0
    (emptyResponse "T" 0 5 "sparse") (by decide) (by decide)

/-- C8 counterexample: a present-but-malformed financials or filings file
does not raise to the engine's caller — each loader catches the error and
returns the empty frame as a successful result, aligning as if no data
existed. -/
theorem malformed_not_raised :
    loadFinancials .malformed = .ok emptyDF ∧ loadFilings .malformed = .ok emptyDF :=
  ⟨rfl, rfl⟩

/-- C8 amended: the financials and filings loaders never surface a read
error: every file state, malformed included, produces a successful
(possibly empty) frame. -/
theorem loaders_swallow_malformed :
    (∀ r : ReadResult FinData, ∃ df, loadFinancials r = .ok df)
    ∧ (∀ r : ReadResult FilingsData, ∃ df, loadFilings r = .ok df) := by
  constructor
  · intro r
    cases r with
    | missing => exact ⟨emptyDF, rfl⟩
    | malformed => exact ⟨emptyDF, rfl⟩
    | parsed j =>
      by_cases hc : j.cols = []
      · exact ⟨emptyDF, by unfold loadFinancials; dsimp only; rw [if_pos hc]⟩
      · exact ⟨_, by unfold loadFinancials; dsimp only; rw [if_neg hc]⟩
  · intro r
    cases r with
    | missing => exact ⟨emptyDF, rfl⟩
    | malformed => exact ⟨emptyDF, rfl⟩
    | parsed j =>
      by_cases hc : (j.filings.filterMap (fun f => f.filed_date.map (fun d =>
          ((d : Int), [f.form_type.map Value.str, f.filing_url.map Value.str,
            f.accession_number.map Value.str])))) = []
      · exact ⟨emptyDF, by unfold loadFilings; dsimp only; rw [if_pos hc]⟩
      · exact ⟨_, by unfold loadFilings; dsimp only; rw [if_neg hc]⟩

/-- C9 counterexample: with unchanged source data (an executives file
lacking `fetched_at`), running `align` on two different days gives
different output — the snapshot row moves with the clock, so the output is
not a function of the inputs alone. -/
theorem align_clock_dependent :
    alignEngine c9Files 2 0 4 ≠ alignEngine c9Files 3 0 4 := by decide

/-- C9 amended: whenever the parsed executives file carries `fetched_at`
(the only place the ambient clock is read), `align` and
`align_to_sparse_ref` are pure functions of the source files and the
requested range: two runs on different days give identical output. -/
theorem align_deterministic (f : SourceFiles) (t1 t2 start e : Int)
    (h : clockFree f) :
    alignEngine f t1 start e = alignEngine f t2 start e
    ∧ alignEngineSparse f t1 start e = alignEngineSparse f t2 start e := by
  have hex : loadExecutives f.executives t1 = loadExecutives f.executives t2 := by
    unfold clockFree at h
    cases hfe : f.executives with
    | missing => rfl
    | malformed => rfl
    | parsed j =>
      rw [hfe] at h
      obtain ⟨d, hd⟩ := Option.isSome_iff_exists.mp h
      unfold loadExecutives
      dsimp only
      rw [hd]
      rfl
  have hload : loadAll f t1 = loadAll f t2 := by
    unfold loadAll
    rw [hex]
  exact ⟨by unfold alignEngine; rw [hload], by unfold alignEngineSparse; rw [hload]⟩

/-- C9 witness: with `fetched_at` present, two concrete runs on different
days agree. -/
theorem align_deterministic_witness :
    alignEngine c9GoodFiles 2 0 4 = alignEngine c9GoodFiles 3 0 4
    ∧ alignEngineSparse c9GoodFiles 2 0 4 = alignEngineSparse c9GoodFiles 3 0 4 :=
  align_deterministic c9GoodFiles 2 3 0 4 rfl

/-! ## Exact forward-fill values (union-then-project correctness) -/

/-- With unique dates, two rows sharing a date coincide. -/
lemma nodup_fst_inj {l : List Row} (hnd : (l.map Prod.fst).Nodup) :
    ∀ r1 ∈ l, ∀ r2 ∈ l, r1.1 = r2.1 → r1 = r2 := by
  induction l with
  | nil => intro r1 h1; exact absurd h1 (List.not_mem_nil _)
  | cons a rest ih =>
    rw [List.map_cons, List.nodup_cons] at hnd
    obtain ⟨hna, hnd'⟩ := hnd
    intro r1 h1 r2 h2 hd
    rcases List.mem_cons.mp h1 with e1 | m1 <;> rcases List.mem_cons.mp h2 with e2 | m2
    · rw [e1, e2]
    · exfalso
      apply hna
      have ha : a.1 = r2.1 := by rw [← e1]; exact hd
      rw [ha]
      exact List.mem_map_of_mem Prod.fst m2
    · exfalso
      apply hna
      have ha : a.1 = r1.1 := by rw [← e2]; exact hd.symm
      rw [ha]
      exact List.mem_map_of_mem Prod.fst m1
    · exact ih hnd' r1 m1 r2 m2 hd

/-- With unique dates, lookup at a member row's date returns its cells. -/
lemma lookupRow_eq_of_mem {l : List Row} (hnd : (l.map Prod.fst).Nodup)
    {r : Row} (hr : r ∈ l) : lookupRow l r.1 = some r.2 := by
  unfold lookupRow
  cases hfind : l.find? (fun q => q.1 = r.1) with
  | none =>
    exfalso
    have := List.find?_eq_none.mp hfind r hr
    simp at this
  | some q =>
    have hq := List.mem_of_find?_eq_some hfind
    have hqd : q.1 = r.1 := by simpa using List.find?_some hfind
    rw [nodup_fst_inj hnd q hq r hr hqd]
    rfl

/-- Lookup misses when the date is not among the rows. -/
lemma lookupRow_eq_none {l : List Row} {d : Int} (h : d ∉ l.map Prod.fst) :
    lookupRow l d = none := by
  unfold lookupRow
  have hfind : l.find? (fun q => q.1 = d) = none := by
    refine List.find?_eq_none.mpr ?_
    intro q hq
    simp only [decide_eq_true_eq]
    intro hqd
    exact h (hqd ▸ List.mem_map_of_mem Prod.fst hq)
  rw [hfind]
  rfl

/-- Indexing an all-null row gives null. -/
lemma getD_const_none {α : Type} (l : List α) (j : Nat) :
    (l.map (fun _ => (none : Cell))).getD j none = none := by
  induction l generalizing j with
  | nil => rfl
  | cons a rest ih =>
    cases j with
    | zero => rfl
    | succ j' => exact ih j'

/-- A contributed row always has one cell per column. -/
lemma reindexRow_length {df : DataFrame}
    (hwf : ∀ r ∈ df.rows, r.2.length = df.cols.length) (d : Int) :
    (reindexRow df d).length = df.cols.length := by
  unfold reindexRow lookupRow
  cases hfind : df.rows.find? (fun r => r.1 = d) with
  | none => simp [noneRow]
  | some q =>
    exact hwf q (List.mem_of_find?_eq_some hfind)

/-- Length of a forward-fill step. -/
lemma ffillRow_length (last cur : List Cell) :
    (ffillRow last cur).length = min last.length cur.length :=
  List.length_zipWith _ _ _

/-- Cell-level description of one forward-fill step. -/
lemma getD_ffillRow (last cur : List Cell) (hlen : last.length = cur.length)
    {j : Nat} (hj : j < cur.length) :
    (ffillRow last cur).getD j none =
      match cur.getD j none with
      | some v => some v
      | none => last.getD j none := by
  induction last generalizing cur j with
  | nil =>
    cases cur with
    | nil => simp only [List.length_nil] at hj; omega
    | cons c cs => simp only [List.length_nil, List.length_cons] at hlen; omega
  | cons l ls ih =>
    cases cur with
    | nil => simp only [List.length_nil] at hj; omega
    | cons c cs =>
      cases j with
      | zero => simp [ffillRow]
      | succ j' =>
        simp only [ffillRow, List.zipWith_cons_cons, List.getD_cons_succ]
        exact ih cs (by simpa using hlen) (by simpa using hj)

/-- Forward-fill preserves row dates. -/
lemma ffillAux_map_fst : ∀ (last : List Cell) (rows : List Row),
    (ffillAux last rows).map Prod.fst = rows.map Prod.fst := by
  intro last rows
  induction rows generalizing last with
  | nil => rfl
  | cons hd rest ih =>
    obtain ⟨d, vs⟩ := hd
    simp only [ffillAux, List.map_cons]
    rw [ih]

/-- Forward-fill preserves uniform row length. -/
lemma ffillAux_wf {n : Nat} : ∀ (last : List Cell) (rows : List Row),
    last.length = n → (∀ r ∈ rows, r.2.length = n) →
    ∀ r ∈ ffillAux last rows, r.2.length = n := by
  intro last rows
  induction rows generalizing last with
  | nil => intro _ _ r hr; simp [ffillAux] at hr
  | cons hd rest ih =>
    obtain ⟨d, vs⟩ := hd
    intro hlast hrows r hr
    have hvs : vs.length = n := hrows (d, vs) (List.mem_cons_self _ _)
    have hmerged : (ffillRow last vs).length = n := by
      rw [ffillRow_length, hlast, hvs, Nat.min_self]
    simp only [ffillAux, List.mem_cons] at hr
    rcases hr with hEq | hMem
    · rw [hEq]
      exact hmerged
    · exact ih (ffillRow last vs) hmerged
        (fun q hq => hrows q (List.mem_cons_of_mem _ hq)) r hMem

/-- Lookup among rows with a present date succeeds with a member row. -/
lemma lookupRow_exists (l : List Row) (T : Int) (h : T ∈ l.map Prod.fst) :
    ∃ cells, lookupRow l T = some cells ∧ (T, cells) ∈ l := by
  unfold lookupRow
  cases hfind : l.find? (fun q => q.1 = T) with
  | none =>
    exfalso
    obtain ⟨r, hr, hrT⟩ := List.mem_map.mp h
    have := List.find?_eq_none.mp hfind r hr
    simp [hrT] at this
  | some q =>
    have hq := List.mem_of_find?_eq_some hfind
    have hqd : q.1 = T := by simpa using List.find?_some hfind
    refine ⟨q.2, rfl, ?_⟩
    rw [← hqd]
    exact hq

/-- Lookup in a date-keyed map of a function applied to the key. -/
lemma lookupRow_map_self {f : Int → List Cell} {l : List Int} {T : Int} (h : T ∈ l) :
    lookupRow (l.map (fun d => (d, f d))) T = some (f T) := by
  induction l with
  | nil => exact absurd h (List.not_mem_nil _)
  | cons a rest ih =>
    by_cases ha : a = T
    · unfold lookupRow
      rw [List.map_cons, List.find?_cons_of_pos _ (by simpa using ha)]
      simp [ha]
    · rcases List.mem_cons.mp h with hEq | hMem
      · exact absurd hEq.symm ha
      · unfold lookupRow at ih ⊢
        rw [List.map_cons, List.find?_cons_of_neg _ (by simpa using ha)]
        exact ih hMem

/-- Membership in the sorted union. -/
lemma mem_sortedUnion {l1 l2 : List Int} {x : Int} :
    x ∈ sortedUnion l1 l2 ↔ x ∈ l1 ∨ x ∈ l2 := by
  unfold sortedUnion
  rw [(List.perm_insertionSort _ _).mem_iff, List.mem_dedup, List.mem_append]

/-- The sorted union is strictly sorted. -/
lemma sortedUnion_pairwise_lt (l1 l2 : List Int) :
    List.Pairwise (fun a b => a < b) (sortedUnion l1 l2) := by
  have hs := sortedUnion_pairwise l1 l2
  have hnd : (sortedUnion l1 l2).Nodup :=
    (List.perm_insertionSort _ _).nodup_iff.mpr (List.nodup_dedup _)
  exact (hs.and hnd).imp (fun h => lt_of_le_of_ne h.1 h.2)

/-- Transfer a most-recent-value fact below bound `b` up to a later date
`d`, given that every row dated in (b, d] has a null j-cell. -/
lemma IsLastVal_transfer {df : DataFrame} {j : Nat} {b : Option Int} {d : Int} {o : Cell}
    (hspec : IsLastValLEb df j b o)
    (hbd : OLT b d)
    (hgap : ∀ r2 ∈ df.rows, r2.1 ≤ d → ¬ OLE r2.1 b → r2.2.getD j none = none) :
    IsLastValLE df j d o := by
  cases b with
  | none =>
    have ho : o = none := hspec
    unfold IsLastValLE
    left
    refine ⟨ho, ?_⟩
    intro r hr hrd
    exact hgap r hr hrd (fun h => h)
  | some bb =>
    have hspec' : IsLastValLE df j bb o := hspec
    unfold IsLastValLE at hspec' ⊢
    rcases hspec' with ⟨ho, hall⟩ | ⟨r0, hr0, hrb, hcell, hne, hmax⟩
    · left
      refine ⟨ho, ?_⟩
      intro r hr hrd
      by_cases hrb2 : r.1 ≤ bb
      · exact hall r hr hrb2
      · exact hgap r hr hrd hrb2
    · right
      refine ⟨r0, hr0, le_trans hrb (le_of_lt hbd), hcell, hne, ?_⟩
      intro r2 hr2 hr2d hlt
      by_cases hrb2 : r2.1 ≤ bb
      · exact hmax r2 hr2 hrb2 hlt
      · exact hgap r2 hr2 hr2d hrb2

/-- Invariant proof that reindexing onto a strictly sorted index `u` that
contains all not-yet-processed dataset dates, then forward-filling,
computes at every index date the most recent value of each column existing
at or before that date. -/
lemma ffill_reindex_spec {df : DataFrame}
    (hnd : (df.rows.map Prod.fst).Nodup)
    (hwf : ∀ r ∈ df.rows, r.2.length = df.cols.length) :
    ∀ (u : List Int) (last : List Cell) (b : Option Int),
      List.Pairwise (fun a c => a < c) u →
      (∀ x ∈ u, OLT b x) →
      (∀ x ∈ df.rows.map Prod.fst, x ∈ u ∨ OLE x b) →
      last.length = df.cols.length →
      (∀ j, j < df.cols.length → IsLastValLEb df j b (last.getD j none)) →
      ∀ r ∈ ffillAux last ((df.reindex u).rows),
        r.2.length = df.cols.length ∧
        ∀ j, j < df.cols.length → IsLastValLE df j r.1 (r.2.getD j none) := by
  intro u
  induction u with
  | nil =>
    intro last b _ _ _ _ _ r hr
    simp [DataFrame.reindex, ffillAux] at hr
  | cons d u' ih =>
    intro last b hpw hgt hcover hlen hspec r hr
    have hdlt := (List.pairwise_cons.mp hpw).1
    have hpw' := (List.pairwise_cons.mp hpw).2
    have hbd : OLT b d := hgt d (List.mem_cons_self _ _)
    have hrr : (df.reindex (d :: u')).rows
        = (d, reindexRow df d) :: (df.reindex u').rows := rfl
    rw [hrr] at hr
    simp only [ffillAux, List.mem_cons] at hr
    have hrlen : (reindexRow df d).length = df.cols.length := reindexRow_length hwf d
    have hmlen : (ffillRow last (reindexRow df d)).length = df.cols.length := by
      rw [ffillRow_length, hlen, hrlen, Nat.min_self]
    have hmerge : ∀ j, j < df.cols.length →
        IsLastValLE df j d ((ffillRow last (reindexRow df d)).getD j none) := by
      intro j hj
      have hgetD := getD_ffillRow last (reindexRow df d)
        (by rw [hlen, hrlen]) (by rw [hrlen]; exact hj)
      rw [hgetD]
      by_cases hd : d ∈ df.rows.map Prod.fst
      · obtain ⟨rd, hrd, hrdd⟩ := List.mem_map.mp hd
        have hlk : lookupRow df.rows d = some rd.2 := by
          rw [← hrdd]
          exact lookupRow_eq_of_mem hnd hrd
        have hridx : reindexRow df d = rd.2 := by
          unfold reindexRow
          rw [hlk]
          rfl
        rw [hridx]
        cases hcell : rd.2.getD j none with
        | some v =>
          show IsLastValLE df j d (some v)
          unfold IsLastValLE
          right
          refine ⟨rd, hrd, le_of_eq hrdd, hcell, fun hc => Option.noConfusion hc, ?_⟩
          intro r2 hr2 hr2d hlt
          exfalso
          rw [hrdd] at hlt
          omega
        | none =>
          show IsLastValLE df j d (last.getD j none)
          refine IsLastVal_transfer (hspec j hj) hbd ?_
          intro r2 hr2 hr2d hnotle
          rcases hcover r2.1 (List.mem_map_of_mem Prod.fst hr2) with hin | hle
          · rcases List.mem_cons.mp hin with hEq | hMem
            · have hr2rd : r2 = rd := nodup_fst_inj hnd r2 hr2 rd hrd (by rw [hEq, hrdd])
              rw [hr2rd]
              exact hcell
            · exfalso
              have := hdlt r2.1 hMem
              omega
          · exact absurd hle hnotle
      · have hcur : reindexRow df d = noneRow df := by
          unfold reindexRow
          rw [lookupRow_eq_none hd]
          rfl
        have hcurj : (reindexRow df d).getD j none = none := by
          rw [hcur]
          unfold noneRow
          exact getD_const_none _ _
        rw [hcurj]
        show IsLastValLE df j d (last.getD j none)
        refine IsLastVal_transfer (hspec j hj) hbd ?_
        intro r2 hr2 hr2d hnotle
        rcases hcover r2.1 (List.mem_map_of_mem Prod.fst hr2) with hin | hle
        · rcases List.mem_cons.mp hin with hEq | hMem
          · exfalso
            exact hd (hEq ▸ List.mem_map_of_mem Prod.fst hr2)
          · exfalso
            have := hdlt r2.1 hMem
            omega
        · exact absurd hle hnotle
    rcases hr with hEq | hMem
    · constructor
      · rw [hEq]
        exact hmlen
      · intro j hj
        rw [hEq]
        exact hmerge j hj
    · refine ih (ffillRow last (reindexRow df d)) (some d) hpw' ?_ ?_ hmlen ?_ r hMem
      · intro x hx
        exact hdlt x hx
      · intro x hxd
        rcases hcover x hxd with hin | hle
        · rcases List.mem_cons.mp hin with hEq | hMem'
          · right
            exact le_of_eq hEq
          · left
            exact hMem'
        · right
          cases b with
          | none => exact hle.elim
          | some bb => exact le_trans hle (le_of_lt hbd)
      · intro j hj
        exact hmerge j hj

/-- A successful lookup returns a member row. -/
lemma lookupRow_mem {l : List Row} {T : Int} {vs : List Cell}
    (h : lookupRow l T = some vs) : (T, vs) ∈ l := by
  unfold lookupRow at h
  cases hfind : l.find? (fun q => q.1 = T) with
  | none => rw [hfind] at h; cases h
  | some q =>
    rw [hfind] at h
    have hq := List.mem_of_find?_eq_some hfind
    have hqd : q.1 = T := by simpa using List.find?_some hfind
    have hv : q.2 = vs := Option.some.inj h
    rw [← hqd, ← hv]
    exact hq

/-- Row lengths after a left join. -/
lemma joinRows_wf {l r : DataFrame}
    (hl : ∀ p ∈ l.rows, p.2.length = l.cols.length)
    (hr : ∀ p ∈ r.rows, p.2.length = r.cols.length) :
    ∀ p ∈ joinRows l.rows r, p.2.length = l.cols.length + r.cols.length := by
  intro p hp
  simp only [joinRows, List.mem_map] at hp
  obtain ⟨q, hq, hEq⟩ := hp
  have h2 : p.2 = q.2 ++ reindexRow r q.1 := by rw [← hEq]
  rw [h2, List.length_append, hl q hq, reindexRow_length hr q.1]

/-- Column count after a suffixing join. -/
lemma joinS_cols_length (l r : DataFrame) (suf : String) :
    (l.joinS r suf).cols.length = l.cols.length + r.cols.length := by
  show (l.cols ++ r.cols.map _).length = _
  rw [List.length_append, List.length_map]

/-- Reindexing keeps uniform row lengths. -/
lemma reindex_wf {df : DataFrame} (hwf : ∀ q ∈ df.rows, q.2.length = df.cols.length)
    (idx : List Int) :
    ∀ q ∈ (df.reindex idx).rows, q.2.length = (df.reindex idx).cols.length := by
  intro q hq
  simp only [DataFrame.reindex, List.mem_map] at hq
  obtain ⟨d, _, hEq⟩ := hq
  have h2 : q.2 = reindexRow df d := by rw [← hEq]
  rw [h2]
  exact reindexRow_length hwf d

/-- Forward-fill keeps uniform row lengths. -/
lemma ffill_wf {g : DataFrame} (hwf : ∀ q ∈ g.rows, q.2.length = g.cols.length) :
    ∀ q ∈ g.ffill.rows, q.2.length = g.ffill.cols.length := by
  intro q hq
  exact ffillAux_wf (noneRow g) g.rows (by simp [noneRow]) hwf q hq

/-- The union-fill-project step keeps uniform row lengths. -/
lemma sparseProject_wf {df : DataFrame}
    (hwf : ∀ q ∈ df.rows, q.2.length = df.cols.length) (refDates : List Int) :
    ∀ q ∈ (sparseProject df refDates).rows,
      q.2.length = (sparseProject df refDates).cols.length := by
  unfold sparseProject
  exact reindex_wf (ffill_wf (reindex_wf hwf _)) _

/-- The sparse join loop keeps uniform row lengths. -/
lemma sparseFold_wf {refDates : List Int} {rn : String} :
    ∀ (l : List (String × DataFrame)) (acc : DataFrame),
      (∀ p ∈ l, ∀ q ∈ p.2.rows, q.2.length = p.2.cols.length) →
      (∀ q ∈ acc.rows, q.2.length = acc.cols.length) →
      ∀ q ∈ (sparseFold refDates rn l acc).rows,
        q.2.length = (sparseFold refDates rn l acc).cols.length := by
  intro l
  induction l with
  | nil => intro acc _ hacc; exact hacc
  | cons p rest ih =>
    obtain ⟨n, df⟩ := p
    intro acc hwfl hacc
    by_cases hskip : n = rn ∨ df.rows = []
    · rw [sparseFold, if_pos hskip]
      exact ih acc (fun q hq => hwfl q (List.mem_cons_of_mem _ hq)) hacc
    · rw [sparseFold, if_neg hskip]
      refine ih _ (fun q hq => hwfl q (List.mem_cons_of_mem _ hq)) ?_
      intro q hq
      rw [joinS_cols_length]
      exact joinRows_wf hacc
        (sparseProject_wf (hwfl (n, df) (List.mem_cons_self _ _)) refDates) q hq

/-- Looking up a joined row appends the right cells at the key. -/
lemma lookupRow_joinRows {lrows : List Row} {r : DataFrame} {T : Int} :
    lookupRow (joinRows lrows r) T
      = (lookupRow lrows T).map (fun vs => vs ++ reindexRow r T) := by
  induction lrows with
  | nil => rfl
  | cons p rest ih =>
    by_cases hpT : p.1 = T
    · unfold lookupRow joinRows
      rw [List.map_cons, List.find?_cons_of_pos _ (by simpa using hpT),
          List.find?_cons_of_pos _ (by simpa using hpT)]
      simp [hpT]
    · unfold lookupRow joinRows at ih ⊢
      rw [List.map_cons, List.find?_cons_of_neg _ (by simpa using hpT),
          List.find?_cons_of_neg _ (by simpa using hpT)]
      exact ih

/-- Cells already in the accumulator are untouched by later sparse joins. -/
lemma sparseFold_cellAt {refDates : List Int} {rn : String} :
    ∀ (l : List (String × DataFrame)) (acc : DataFrame) (T : Int) (i : Nat),
      (∀ p ∈ l, ∀ q ∈ p.2.rows, q.2.length = p.2.cols.length) →
      (∀ q ∈ acc.rows, q.2.length = acc.cols.length) →
      i < acc.cols.length →
      cellAt (sparseFold refDates rn l acc) T i = cellAt acc T i := by
  intro l
  induction l with
  | nil => intro acc T i _ _ _; rfl
  | cons p rest ih =>
    obtain ⟨n, df⟩ := p
    intro acc T i hwfl hacc hi
    by_cases hskip : n = rn ∨ df.rows = []
    · rw [sparseFold, if_pos hskip]
      exact ih acc T i (fun q hq => hwfl q (List.mem_cons_of_mem _ hq)) hacc hi
    · rw [sparseFold, if_neg hskip]
      have hproj := sparseProject_wf (hwfl (n, df) (List.mem_cons_self _ _)) refDates
      have hacc2 : ∀ q ∈ (acc.joinS (sparseProject df refDates) ("_" ++ n)).rows,
          q.2.length = (acc.joinS (sparseProject df refDates) ("_" ++ n)).cols.length := by
        intro q hq
        rw [joinS_cols_length]
        exact joinRows_wf hacc hproj q hq
      have hi2 : i < (acc.joinS (sparseProject df refDates) ("_" ++ n)).cols.length := by
        rw [joinS_cols_length]
        omega
      rw [ih _ T i (fun q hq => hwfl q (List.mem_cons_of_mem _ hq)) hacc2 hi2]
      unfold cellAt
      show ((lookupRow (joinRows acc.rows _) T).getD []).getD i none = _
      rw [lookupRow_joinRows]
      cases hlk : lookupRow acc.rows T with
      | none => rfl
      | some vs =>
        have hlen : vs.length = acc.cols.length := hacc (T, vs) (lookupRow_mem hlk)
        show ((vs ++ reindexRow _ T)).getD i none = vs.getD i none
        exact List.getD_append _ _ _ _ (by omega)

/-- The sparse join loop splits over list append. -/
lemma sparseFold_append {refDates : List Int} {rn : String} :
    ∀ (l1 l2 : List (String × DataFrame)) (acc : DataFrame),
      sparseFold refDates rn (l1 ++ l2) acc
        = sparseFold refDates rn l2 (sparseFold refDates rn l1 acc) := by
  intro l1
  induction l1 with
  | nil => intro l2 acc; rfl
  | cons p rest ih =>
    obtain ⟨n, df⟩ := p
    intro l2 acc
    simp only [List.cons_append, sparseFold]
    by_cases hskip : n = rn ∨ df.rows = []
    · rw [if_pos hskip, if_pos hskip]
      exact ih l2 acc
    · rw [if_neg hskip, if_neg hskip]
      exact ih l2 _

/-- Reindexing a reindexed frame onto a contained date keeps the original
contribution. -/
lemma reindexRow_reindex {g : DataFrame} {idx : List Int} {T : Int} (hT : T ∈ idx) :
    reindexRow (g.reindex idx) T = reindexRow g T := by
  show (lookupRow ((g.reindex idx).rows) T).getD (noneRow (g.reindex idx)) = _
  have hlk : lookupRow ((g.reindex idx).rows) T = some (reindexRow g T) :=
    lookupRow_map_self hT
  rw [hlk]
  rfl

/-- The union-fill-project step computes, at every reference date, the most
recent value of each column of the dataset existing at or before that
date. -/
lemma sparseProject_cells {df : DataFrame}
    (hnd : (df.rows.map Prod.fst).Nodup)
    (hwf : ∀ q ∈ df.rows, q.2.length = df.cols.length)
    {refDates : List Int} {T : Int} (hT : T ∈ refDates) :
    (reindexRow (sparseProject df refDates) T).length = df.cols.length ∧
    ∀ j, j < df.cols.length →
      IsLastValLE df j T ((reindexRow (sparseProject df refDates) T).getD j none) := by
  have hstep : reindexRow (sparseProject df refDates) T
      = reindexRow ((df.reindex (sortedUnion (df.rows.map Prod.fst) refDates)).ffill) T :=
    reindexRow_reindex hT
  rw [hstep]
  have hTu : T ∈ sortedUnion (df.rows.map Prod.fst) refDates :=
    mem_sortedUnion.mpr (Or.inr hT)
  have hfst : ((df.reindex (sortedUnion (df.rows.map Prod.fst) refDates)).ffill).rows.map
      Prod.fst = sortedUnion (df.rows.map Prod.fst) refDates := by
    show (ffillAux _ _).map Prod.fst = _
    rw [ffillAux_map_fst, reindex_map_fst]
  obtain ⟨cells, hlk, hmem⟩ := lookupRow_exists _ _ (hfst ▸ hTu)
  have hcells : reindexRow ((df.reindex (sortedUnion (df.rows.map Prod.fst)
      refDates)).ffill) T = cells := by
    unfold reindexRow
    rw [hlk]
    rfl
  rw [hcells]
  have hmain := ffill_reindex_spec hnd hwf
    (sortedUnion (df.rows.map Prod.fst) refDates)
    (noneRow (df.reindex (sortedUnion (df.rows.map Prod.fst) refDates))) none
    (sortedUnion_pairwise_lt _ _)
    (fun x _ => trivial)
    (fun x hx => Or.inl (mem_sortedUnion.mpr (Or.inl hx)))
    (by unfold noneRow; rw [List.length_map]; rfl)
    (fun j _ => by
      show (noneRow _).getD j none = none
      unfold noneRow
      exact getD_const_none _ _)
    (T, cells) hmem
  exact hmain

/-- C5.  Union-then-project correctness in sparse mode: for every
non-reference non-empty dataset and every kept reference timestamp T, the
dataset's output cells at T (a contiguous block of columns at some offset
k) hold, per column, the dataset's most recent value existing at its own
greatest timestamp ≤ T (null when none exists) — including values dated
strictly between two reference points, which the union step preserves. -/
theorem sparse_union_project (start e : Int) (dss : List (String × DataFrame))
    (rn : String) (rdf : DataFrame) (n : String) (df : DataFrame)
    (pre post : List (String × DataFrame))
    (hwf : ∀ p ∈ dss, ∀ q ∈ p.2.rows, q.2.length = p.2.cols.length)
    (hnd : (df.rows.map Prod.fst).Nodup)
    (hpick : pickRef dss = some (rn, rdf))
    (hsplit : dss = pre ++ (n, df) :: post)
    (hne : n ≠ rn) (hnonempty : df.rows ≠ []) :
    ∃ k, ∀ T ∈ (rdf.rows.filter (fun q => decide (start ≤ q.1 ∧ q.1 ≤ e))).map Prod.fst,
      ∀ j, j < df.cols.length →
        IsLastValLE df j T (cellAt (alignSparse start e dss) T (k + j)) := by
  by_cases hrefF : rdf.rows.filter (fun q => decide (start ≤ q.1 ∧ q.1 ≤ e)) = []
  · refine ⟨0, ?_⟩
    intro T hT
    rw [hrefF] at hT
    exact absurd hT (List.not_mem_nil _)
  · have hrdfwf : ∀ q ∈ rdf.rows, q.2.length = rdf.cols.length :=
      hwf (rn, rdf) (pickRef_mem hpick).1
    -- names for the stages of the sparse aligner
    set refF := rdf.rows.filter (fun q => decide (start ≤ q.1 ∧ q.1 ≤ e)) with hrefFdef
    set refDates := refF.map Prod.fst with hrefDatesDef
    set acc0 := DataFrame.joinS ⟨[], refF.map (fun r => (r.1, ([] : List Cell)))⟩
      ⟨rdf.cols, refF⟩ "" with hacc0def
    have halign : alignSparse start e dss
        = sparseFold refDates rn post
            ((sparseFold refDates rn pre acc0).joinS
              (sparseProject df refDates) ("_" ++ n)) := by
      unfold alignSparse
      rw [hpick]
      dsimp only
      rw [if_neg hrefF]
      rw [hsplit, sparseFold_append, sparseFold, if_neg (not_or.mpr ⟨hne, hnonempty⟩)]
    set accA := sparseFold refDates rn pre acc0 with haccAdef
    set accB := accA.joinS (sparseProject df refDates) ("_" ++ n) with haccBdef
    refine ⟨accA.cols.length, ?_⟩
    intro T hT j hj
    rw [halign]
    -- well-formedness of the accumulators
    have hwfpre : ∀ p ∈ pre, ∀ q ∈ p.2.rows, q.2.length = p.2.cols.length := by
      intro p hp
      exact hwf p (by rw [hsplit]; exact List.mem_append_left _ hp)
    have hwfpost : ∀ p ∈ post, ∀ q ∈ p.2.rows, q.2.length = p.2.cols.length := by
      intro p hp
      refine hwf p ?_
      rw [hsplit]
      exact List.mem_append_right _ (List.mem_cons_of_mem _ hp)
    have hdfwf : ∀ q ∈ df.rows, q.2.length = df.cols.length := by
      refine hwf (n, df) ?_
      rw [hsplit]
      exact List.mem_append_right _ (List.mem_cons_self _ _)
    have hacc0wf : ∀ q ∈ acc0.rows, q.2.length = acc0.cols.length := by
      intro q hq
      rw [hacc0def, joinS_cols_length]
      refine joinRows_wf ?_ ?_ q hq
      · intro p hp
        simp only [List.mem_map] at hp
        obtain ⟨r0, _, hEq⟩ := hp
        have h2 : p.2 = ([] : List Cell) := by rw [← hEq]
        rw [h2]
        rfl
      · intro p hp
        exact hrdfwf p (List.mem_of_mem_filter hp)
    have haccAwf : ∀ q ∈ accA.rows, q.2.length = accA.cols.length :=
      sparseFold_wf pre acc0 hwfpre hacc0wf
    have hprojwf := sparseProject_wf hdfwf refDates
    have haccBwf : ∀ q ∈ accB.rows, q.2.length = accB.cols.length := by
      intro q hq
      rw [haccBdef, joinS_cols_length]
      exact joinRows_wf haccAwf hprojwf q hq
    have hprojcols : (sparseProject df refDates).cols.length = df.cols.length := rfl
    have hkj : accA.cols.length + j < accB.cols.length := by
      rw [haccBdef, joinS_cols_length, hprojcols]
      omega
    -- later joins do not move the block
    rw [sparseFold_cellAt post accB T (accA.cols.length + j) hwfpost haccBwf hkj]
    -- the block itself is the projection of df
    have haccAfst : accA.rows.map Prod.fst = refDates := by
      rw [haccAdef, sparseFold_map_fst, hacc0def]
      show (joinRows _ _).map Prod.fst = _
      rw [joinRows_map_fst]
      simp only [List.map_map]
      rfl
    obtain ⟨vs, hlk, hmem⟩ := lookupRow_exists accA.rows T
      (by rw [haccAfst]; exact hT)
    have hvslen : vs.length = accA.cols.length := haccAwf (T, vs) hmem
    have hcell : cellAt accB T (accA.cols.length + j)
        = (reindexRow (sparseProject df refDates) T).getD j none := by
      unfold cellAt
      rw [haccBdef]
      show ((lookupRow (joinRows accA.rows _) T).getD []).getD _ none = _
      rw [lookupRow_joinRows, hlk]
      show ((vs ++ reindexRow (sparseProject df refDates) T)).getD _ none = _
      rw [List.getD_append_right _ _ _ _ (by omega)]
      congr 1
      omega
    rw [hcell]
    exact (sparseProject_cells hnd hdfwf hT).2 j hj

/-- C5 witness: on the concrete run the prices block of the sparse output
holds, at each kept executive date, the most recent price at or before it. -/
theorem sparse_union_project_witness :
    ∃ k, ∀ T ∈ (c5Ex.rows.filter (fun q => decide ((0 : Int) ≤ q.1 ∧ q.1 ≤ 180))).map
        Prod.fst, ∀ j, j < c5Pr.cols.length →
      IsLastValLE c5Pr j T (cellAt (alignSparse 0 180 c5Dss) T (k + j)) :=
  sparse_union_project 0 180 c5Dss "executives" c5Ex "prices" c5Pr []
    [("financials", emptyDF), ("filings", emptyDF), ("news", emptyDF),
     ("executives", c5Ex)]
    (by decide) (by decide) (by decide) rfl (by decide) (by decide)

end MiniBloomberg
